import Mathlib

/-!
# Verification of the credit-gated processing queue of nevisoAI

This file gives a shallow embedding, in Lean 4, of the three core
subsystems of the repository:

* the credit ledger (`app/services/credit_service.py`:
  `CreditManager.get_user_balance`, `deduct_credits`, `refund_credits`),
* the admission-control queue (`app/services/queue_service.py`:
  `QueueManager.check_user_rate_limit`, `increment_user_counters`,
  `get_user_priority`, `add_to_queue`, `get_next_task`, `retry_task`),
* the failure classifier (`app/worker/error_handler.py`:
  `ProcessingError.classify_error`, `should_retry`, `get_retry_delay`),

and proves or refutes the frozen claims about them.

Modelling conventions:

* The Python code does all money/minute arithmetic through
  `decimal.Decimal` built from `str(...)` of the stored values; we model
  the amounts as exact rationals (`ℚ`), which matches `Decimal`
  arithmetic on the operations used (addition, subtraction, `min`,
  `max`).
* Database sessions become explicit state passing; `db.commit()` is the
  returned state and `db.rollback()` on an exception path means the
  original state is kept by the caller.
* `datetime.utcnow()` is modelled by an explicit `now : ℤ` (epoch
  seconds) parameter, with the UTC calendar day passed separately as
  `today : ℤ` where the code calls `.date()`; a single call uses a
  single instant.
* Redis structures become fields of the state record: the sorted set is
  an association list `List (Nat × ℤ)` from member (note id) to score,
  the counters are plain integers.  Key TTLs are not modelled (a
  counter's current value is whatever the state says).
* `created_at` server timestamps on credit transactions are modelled by
  a logical clock in the state, assigned in insertion order, so that
  `ORDER BY created_at DESC` is a sort by that clock, descending.
-/

namespace Neviso

/-! ## Failure classifier (`app/worker/error_handler.py`) -/

/-- `ErrorCategory` from `error_handler.py`. -/
inductive ErrorCategory where
  | NETWORK_ERROR
  | API_ERROR
  | FILE_ERROR
  | PARSING_ERROR
  | DATABASE_ERROR
  | UNKNOWN_ERROR
  deriving DecidableEq, Repr

/-- A raised Python exception, as the classifier sees it: the class name
(`type(error).__name__`) and the message (`str(error)`). -/
structure PyError where
  typeName : String
  message : String
  deriving DecidableEq, Repr

/-- One entry of `ProcessingError.ERROR_PATTERNS`: category, the Persian
user-facing message, and the retryable flag. -/
structure PatternInfo where
  category : ErrorCategory
  user_message : String
  retryable : Bool
  deriving DecidableEq, Repr

/-- `ProcessingError.ERROR_PATTERNS`, in dict insertion order (Python
dicts iterate in insertion order, and `classify_error` iterates this
dict), as `(substring pattern, info)` pairs. -/
def ERROR_PATTERNS : List (String × PatternInfo) :=
  [ ("quota",
     ⟨.API_ERROR, "سهمیه استفاده از هوش مصنوعی تمام شده است. لطفاً بعداً دوباره تلاش کنید.", false⟩),
    ("rate limit",
     ⟨.API_ERROR, "تعداد درخواست‌ها بیش از حد مجاز است. لطفاً کمی صبر کنید و دوباره تلاش کنید.", true⟩),
    ("authentication",
     ⟨.API_ERROR, "خطا در احراز هویت با سرویس هوش مصنوعی. لطفاً با پشتیبانی تماس بگیرید.", false⟩),
    ("403",
     ⟨.API_ERROR, "دسترسی به سرویس هوش مصنوعی مسدود شده است. لطفاً با پشتیبانی تماس بگیرید.", false⟩),
    ("invalid file",
     ⟨.FILE_ERROR, "فایل آپلود شده قابل پردازش نیست. لطفاً فرمت فایل را بررسی کنید.", false⟩),
    ("file not found",
     ⟨.FILE_ERROR, "فایل آپلود شده یافت نشد. لطفاً دوباره آپلود کنید.", false⟩),
    ("unsupported format",
     ⟨.FILE_ERROR, "فرمت فایل پشتیبانی نمی‌شود. فقط فایل‌های صوتی و تصویری مجاز هستند.", false⟩),
    ("timeout",
     ⟨.NETWORK_ERROR, "زمان پردازش به پایان رسید. لطفاً دوباره تلاش کنید.", true⟩),
    ("connection",
     ⟨.NETWORK_ERROR, "خطا در برقراری ارتباط با سرویس. لطفاً دوباره تلاش کنید.", true⟩),
    ("network",
     ⟨.NETWORK_ERROR, "خطای شبکه. لطفاً اتصال اینترنت خود را بررسی کنید.", true⟩),
    ("json",
     ⟨.PARSING_ERROR, "خطا در تفسیر خروجی هوش مصنوعی. در حال تلاش مجدد...", true⟩),
    ("database",
     ⟨.DATABASE_ERROR, "خطا در ذخیره‌سازی اطلاعات. لطفاً دوباره تلاش کنید.", true⟩),
    ("models/gemini",
     ⟨.API_ERROR, "مدل هوش مصنوعی در دسترس نیست. لطفاً با پشتیبانی تماس بگیرید.", false⟩) ]

/-- Python's `str.lower()`, modelled on the character list (ASCII case
folding; the Persian text in play has no letter case). -/
def pyLower (s : String) : String :=
  ⟨s.data.map Char.toLower⟩

/-- `l₂` occurs contiguously inside `l₁`. -/
def listHasInfix (pat : List Char) : List Char → Bool
  | [] => pat.isEmpty
  | c :: rest => pat.isPrefixOf (c :: rest) || listHasInfix pat rest

/-- `pattern in error_str` of Python: substring containment, on the
underlying character lists. -/
def strContains (hay pat : String) : Bool :=
  listHasInfix pat.data hay.data

/-- First pattern of `ERROR_PATTERNS` contained in the (lowercased)
error string, with its info — the loop of `classify_error`. -/
def matchPattern (error_str : String) : Option (String × PatternInfo) :=
  ERROR_PATTERNS.find? (fun p => strContains error_str p.1)

/-- Result of `ProcessingError.classify_error`: the 4-tuple
`(category, user_message, error_detail, is_retryable)`.  The Python
`error_detail` also embeds `traceback.format_exc()`, a runtime artefact
we render as just `type: message`. -/
structure ClassifyResult where
  category : ErrorCategory
  user_message : String
  error_detail : String
  is_retryable : Bool
  deriving DecidableEq, Repr

/-- `ProcessingError.classify_error`.  Lowercases `str(error)`, scans
`ERROR_PATTERNS` in order, and falls back to `UNKNOWN_ERROR` with
`retryable = False`. -/
def classify_error (error : PyError) : ClassifyResult :=
  let error_str := pyLower error.message
  let error_detail := error.typeName ++ ": " ++ error.message
  match matchPattern error_str with
  | some (_, info) =>
      ⟨info.category, info.user_message, error_detail, info.retryable⟩
  | none =>
      ⟨.UNKNOWN_ERROR,
       "خطای غیرمنتظره در پردازش فایل: " ++ error.typeName ++ ". لطفاً با پشتیبانی تماس بگیرید.",
       error_detail, false⟩

/-- `ProcessingError.should_retry`. -/
def should_retry (error : PyError) (current_retry_count : Nat)
    (max_retries : Nat := 3) : Bool :=
  if current_retry_count ≥ max_retries then false
  else (classify_error error).is_retryable

/-- `ProcessingError.get_retry_delay`: `5 * 3 ^ retry_count`. -/
def get_retry_delay (retry_count : Nat) : Nat :=
  5 * 3 ^ retry_count

end Neviso

namespace Neviso

/-! ### Claims C8 and C9 -/

/-- **C8.** For every error and retry count, `should_retry` returns
`true` exactly when the error classifies as retryable and
`retryCount < maxRetries`; and an error matching none of the known
patterns classifies as `UNKNOWN_ERROR` with `retryable = false`, so
`should_retry` returns `false` for it at every retry count. -/
theorem should_retry_iff (error : PyError) (n m : Nat) :
    should_retry error n m
      = ((classify_error error).is_retryable && decide (n < m)) ∧
    (matchPattern (pyLower error.message) = none →
      (classify_error error).category = ErrorCategory.UNKNOWN_ERROR ∧
      (classify_error error).is_retryable = false ∧
      should_retry error n m = false) := by
  constructor
  · unfold should_retry
    by_cases h : n ≥ m
    · simp [h, Nat.not_lt.mpr h]
    · simp [h, Nat.lt_of_not_le h]
  · intro hnone
    unfold should_retry classify_error
    simp only [hnone]
    refine ⟨by trivial, by trivial, ?_⟩
    by_cases h : n ≥ m <;> simp [h]

/-- Witness for `should_retry_iff` at a concrete unmatched error. -/
theorem should_retry_iff_witness :
    should_retry ⟨"ValueError", "boom"⟩ 0 3 = false := by
  have h := should_retry_iff ⟨"ValueError", "boom"⟩ 0 3
  exact (h.2 (by decide)).2.2

/-- **C9, counterexample.**  The claim says an error message indicating
provider quota exhaustion classifies with `retryable = true`.  In the
code, the `"quota"` entry of `ERROR_PATTERNS` carries
`"retryable": False`, so a quota-exhaustion error is *not* retryable:
here the concrete error message "429 quota exceeded for model" is
classified with `is_retryable = false`. -/
theorem quota_not_retryable_cex :
    (classify_error ⟨"ResourceExhausted", "429 quota exceeded for model"⟩).category
        = ErrorCategory.API_ERROR ∧
    (classify_error ⟨"ResourceExhausted", "429 quota exceeded for model"⟩).is_retryable
        = false := by
  constructor <;> decide

/-- **C9, amended.** For every error whose (lowercased) message contains
`"quota"`, the classifier maps it to the API-error (quota/rate-limit)
category with `retryable = false` — quota exhaustion is treated as a
permanent failure, not a transient one. -/
theorem quota_classified_not_retryable (error : PyError)
    (h : strContains (pyLower error.message) "quota" = true) :
    (classify_error error).category = ErrorCategory.API_ERROR ∧
    (classify_error error).is_retryable = false := by
  unfold classify_error
  have hm : matchPattern (pyLower error.message)
      = some ("quota",
          ⟨.API_ERROR,
           "سهمیه استفاده از هوش مصنوعی تمام شده است. لطفاً بعداً دوباره تلاش کنید.",
           false⟩) := by
    unfold matchPattern ERROR_PATTERNS
    exact List.find?_cons_of_pos _ h
  simp only [hm]
  exact ⟨trivial, trivial⟩

/-- Witness for `quota_classified_not_retryable`. -/
theorem quota_classified_not_retryable_witness :
    (classify_error ⟨"Exception", "Gemini quota limit hit"⟩).category
        = ErrorCategory.API_ERROR ∧
    (classify_error ⟨"Exception", "Gemini quota limit hit"⟩).is_retryable = false :=
  quota_classified_not_retryable ⟨"Exception", "Gemini quota limit hit"⟩ (by decide)

end Neviso

namespace Neviso

/-! ## Credit ledger (`app/services/credit_service.py`)

`UserSubscription` rows (joined with their `Plan`) are the credit
grants; `CreditTransaction` rows are the append-only ledger.  The
fields kept are exactly those the credit manager reads or writes. -/

/-- `SubscriptionStatus` from `app/db/models.py`. -/
inductive SubStatus where
  | active
  | expired
  | cancelled
  deriving DecidableEq, Repr

/-- A `UserSubscription` row with its plan's `max_minutes` inlined
(the code always reads it through `sub.plan.max_minutes`). -/
structure Subscription where
  id : Nat
  user_id : Nat
  max_minutes : ℚ
  minutes_consumed : ℚ
  end_date : ℤ
  status : SubStatus
  deriving DecidableEq, Repr

/-- `TransactionType` from `app/db/models.py`. -/
inductive TxnType where
  | deduct
  | refund
  | purchase
  | bonus
  deriving DecidableEq, Repr

/-- A `CreditTransaction` row.  `created_at` is the logical insertion
clock standing for the server timestamp. -/
structure CreditTransaction where
  user_id : Nat
  subscription_id : Option Nat
  note_id : Option Nat
  transaction_type : TxnType
  amount : ℚ
  balance_before : ℚ
  balance_after : ℚ
  created_at : Nat
  deriving DecidableEq, Repr

/-- The persistent state the credit manager operates on. -/
structure CreditState where
  subs : List Subscription
  transactions : List CreditTransaction
  clock : Nat
  deriving DecidableEq, Repr

/-- The WHERE clause shared by `get_user_balance` and `deduct_credits`:
this user's rows with `status == active` and `end_date > utcnow()`. -/
def isActiveFor (user_id : Nat) (now : ℤ) (s : Subscription) : Bool :=
  decide (s.user_id = user_id ∧ s.status = SubStatus.active ∧ now < s.end_date)

/-- `ORDER BY end_date ASC` (oldest-expiring first). -/
def sortByEndDate (l : List Subscription) : List Subscription :=
  List.insertionSort (fun a b => a.end_date ≤ b.end_date) l

/-- The subscriptions the two credit queries return, in query order. -/
def activeSubsSorted (subs : List Subscription) (user_id : Nat) (now : ℤ) :
    List Subscription :=
  sortByEndDate (subs.filter (isActiveFor user_id now))

/-- `max(Decimal('0'), max_minutes - minutes_consumed)` — the remaining
credit of one subscription. -/
def remainingOf (s : Subscription) : ℚ :=
  max 0 (s.max_minutes - s.minutes_consumed)

/-- `CreditManager.get_user_balance`'s `total_minutes`: the sum of the
remaining credit over the active, unexpired subscriptions. -/
def userBalance (subs : List Subscription) (user_id : Nat) (now : ℤ) : ℚ :=
  ((activeSubsSorted subs user_id now).map remainingOf).sum

/-- `get_user_balance` on the state. -/
def get_user_balance (st : CreditState) (user_id : Nat) (now : ℤ) : ℚ :=
  userBalance st.subs user_id now

/-- One pending ledger write produced inside a deduct/refund loop,
before the commit assigns `created_at`. -/
structure PendingTxn where
  subscription_id : Nat
  amount : ℚ
  balance_before : ℚ
  balance_after : ℚ
  deriving DecidableEq, Repr

/-- The allocation loop of `deduct_credits`: walk the query result,
`break` once nothing remains to deduct, `continue` past exhausted
subscriptions, and take `min(available, remaining)` from each of the
others, threading the running balance for the ledger rows. -/
def deductLoop : List Subscription → ℚ → ℚ → List PendingTxn
  | [], _, _ => []
  | s :: rest, remaining, bal =>
    if remaining ≤ 0 then []
    else
      let available := max 0 (s.max_minutes - s.minutes_consumed)
      if available ≤ 0 then deductLoop rest remaining bal
      else
        let d := min available remaining
        ⟨s.id, d, bal, bal - d⟩ :: deductLoop rest (remaining - d) (bal - d)

/-- `sub.minutes_consumed = sub.minutes_consumed + d` for the
subscription with the given primary key (ids are unique in the store). -/
def addConsumed (sid : Nat) (d : ℚ) (l : List Subscription) : List Subscription :=
  l.map fun s =>
    if s.id = sid then { s with minutes_consumed := s.minutes_consumed + d } else s

/-- Apply, in loop order, every `minutes_consumed` assignment the
deduct loop performed. -/
def applyDeductions (l : List Subscription) (frags : List PendingTxn) :
    List Subscription :=
  frags.foldl (fun acc f => addConsumed f.subscription_id f.amount acc) l

/-- Commit the pending ledger rows: each `db.add(transaction)` becomes
an appended row stamped with the next clock tick. -/
def stampTxns (user_id : Nat) (note_id : Option Nat) (tt : TxnType) :
    Nat → List PendingTxn → List CreditTransaction
  | _, [] => []
  | clock, f :: fs =>
      ⟨user_id, some f.subscription_id, note_id, tt, f.amount,
        f.balance_before, f.balance_after, clock⟩
        :: stampTxns user_id note_id tt (clock + 1) fs

/-- `CreditManager.deduct_credits`.  Checks the balance, raising
`InsufficientCreditsError` (the `Except.error` branch; `db.rollback()`
means the caller keeps the original state) when it is short, otherwise
consumes from the active subscriptions in ascending `end_date` order and
logs one `deduct` transaction per touched subscription. -/
def deduct_credits (st : CreditState) (user_id : Nat) (amount : ℚ)
    (note_id : Option Nat) (now : ℤ) : Except String CreditState :=
  let current_balance := get_user_balance st user_id now
  if current_balance < amount then
    Except.error "InsufficientCreditsError"
  else
    let frags := deductLoop (activeSubsSorted st.subs user_id now) amount current_balance
    Except.ok
      { subs := applyDeductions st.subs frags,
        transactions :=
          st.transactions ++ stampTxns user_id note_id TxnType.deduct st.clock frags,
        clock := st.clock + frags.length }

/-- `deduct_credits` seen from the caller: on the exception path the
rolled-back (unchanged) state is kept. -/
def deductRun (st : CreditState) (user_id : Nat) (amount : ℚ)
    (note_id : Option Nat) (now : ℤ) : Except String Unit × CreditState :=
  match deduct_credits st user_id amount note_id now with
  | Except.ok st' => (Except.ok (), st')
  | Except.error e => (Except.error e, st)

/-- `ORDER BY created_at DESC` (most recent deduction first). -/
def sortByCreatedDesc (l : List CreditTransaction) : List CreditTransaction :=
  List.insertionSort (fun a b => b.created_at ≤ a.created_at) l

/-- The WHERE clause of `refund_credits`' transaction query: this
user's `deduct` rows for this note. -/
def isDeductFor (user_id : Nat) (note_id : Option Nat) (t : CreditTransaction) : Bool :=
  decide (t.user_id = user_id ∧ t.note_id = note_id ∧
    t.transaction_type = TxnType.deduct)

/-- `sub.minutes_consumed = v` for the subscription with the given id. -/
def setConsumed (sid : Nat) (v : ℚ) (l : List Subscription) : List Subscription :=
  l.map fun s => if s.id = sid then { s with minutes_consumed := v } else s

/-- The reversal loop of `refund_credits`: walk the prior `deduct`
rows newest-first, skip rows with no subscription or whose subscription
no longer exists, give back `min(trans.amount, remaining)` to each,
flooring `minutes_consumed` at 0. -/
def refundLoop :
    List CreditTransaction → List Subscription → ℚ → ℚ →
      List Subscription × List PendingTxn
  | [], subs, _, _ => (subs, [])
  | t :: ts, subs, remaining, bal =>
    if remaining ≤ 0 then (subs, [])
    else
      match t.subscription_id with
      | none => refundLoop ts subs remaining bal
      | some sid =>
        match subs.find? (fun s => decide (s.id = sid)) with
        | none => refundLoop ts subs remaining bal
        | some sub =>
          let x := min t.amount remaining
          let newConsumed := max 0 (sub.minutes_consumed - x)
          let subs' := setConsumed sid newConsumed subs
          let rec' := refundLoop ts subs' (remaining - x) (bal + x)
          (rec'.1, ⟨sid, x, bal, bal + x⟩ :: rec'.2)

/-- `CreditManager.refund_credits`: reverse prior deductions for the
note, newest first, against the same subscriptions, writing one
`refund` ledger row per reversed fragment.  The function never fails
(it silently refunds at most what it finds). -/
def refund_credits (st : CreditState) (user_id : Nat) (amount : ℚ)
    (note_id : Option Nat) (now : ℤ) : CreditState :=
  let bal := get_user_balance st user_id now
  let dts := sortByCreatedDesc (st.transactions.filter (isDeductFor user_id note_id))
  let res := refundLoop dts st.subs amount bal
  { subs := res.1,
    transactions :=
      st.transactions ++ stampTxns user_id note_id TxnType.refund st.clock res.2,
    clock := st.clock + res.2.length }

end Neviso

namespace Neviso

/-! ### Claim C3 -/

/-- The two-grant state of the spec's ordering scenario: grant A
(60 minutes, expires at day 10), grant B (60 minutes, expires at day
30), nothing consumed, empty ledger. -/
def orderingState : CreditState :=
  { subs :=
      [ ⟨1, 7, 60, 0, 10, SubStatus.active⟩,
        ⟨2, 7, 60, 0, 30, SubStatus.active⟩ ],
    transactions := [],
    clock := 0 }

/-- **C3.** Deduct consumes from active grants in ascending expiry
order, `min(available, remaining)` from each, one ledger entry per
touched grant: `deduct(owner, 70)` on grants A (60 min, expiring
sooner) and B (60 min, expiring later) leaves `A.consumed = 60`,
`B.consumed = 10`, balance 50, and writes exactly two `deduct` ledger
rows, for A (amount 60) then B (amount 10). -/
theorem deduct_ascending_expiry_scenario :
    (deductRun orderingState 7 70 (some 42) 0).1 = Except.ok () ∧
    (((deductRun orderingState 7 70 (some 42) 0).2).subs.map
        fun s => (s.id, s.minutes_consumed)) = [(1, 60), (2, 10)] ∧
    get_user_balance (deductRun orderingState 7 70 (some 42) 0).2 7 0 = 50 ∧
    (((deductRun orderingState 7 70 (some 42) 0).2).transactions.map
        fun t => (t.transaction_type, t.subscription_id, t.amount))
      = [(TxnType.deduct, some 1, 60), (TxnType.deduct, some 2, 10)] := by
  refine ⟨?_, ?_, ?_, ?_⟩ <;>
    norm_num [deductRun, deduct_credits, get_user_balance, userBalance,
      activeSubsSorted, sortByEndDate, isActiveFor, remainingOf, deductLoop,
      applyDeductions, addConsumed, stampTxns, orderingState,
      List.insertionSort, List.orderedInsert]

end Neviso

namespace Neviso

/-! ### Ledger lemmas

The deduction loop is characterised by three facts: its fragments have
positive amounts drawn from the listed subscriptions, their total is
`min remaining (sum of available credit)`, and applying them to the
subscription list lowers the total available credit by exactly that
total. -/

/-- Total remaining credit of a subscription list. -/
def sumRemaining (l : List Subscription) : ℚ :=
  (l.map remainingOf).sum

/-- Total amount of a fragment list. -/
def sumAmounts (frags : List PendingTxn) : ℚ :=
  (frags.map (·.amount)).sum

theorem remainingOf_nonneg (s : Subscription) : 0 ≤ remainingOf s :=
  le_max_left 0 _

theorem sumRemaining_nonneg (l : List Subscription) : 0 ≤ sumRemaining l :=
  List.sum_nonneg (by
    intro x hx
    obtain ⟨s, _, rfl⟩ := List.mem_map.mp hx
    exact remainingOf_nonneg s)

theorem userBalance_nonneg (subs : List Subscription) (u : Nat) (now : ℤ) :
    0 ≤ userBalance subs u now :=
  sumRemaining_nonneg _

theorem sumRemaining_cons (s : Subscription) (l : List Subscription) :
    sumRemaining (s :: l) = remainingOf s + sumRemaining l := by
  simp [sumRemaining]

theorem sumAmounts_cons (f : PendingTxn) (l : List PendingTxn) :
    sumAmounts (f :: l) = f.amount + sumAmounts l := by
  simp [sumAmounts]

theorem deductLoop_amounts_pos :
    ∀ (l : List Subscription) (r b : ℚ), ∀ f ∈ deductLoop l r b, 0 < f.amount := by
  intro l
  induction l with
  | nil => intro r b f hf; simp [deductLoop] at hf
  | cons s rest ih =>
    intro r b f hf
    rw [deductLoop] at hf
    by_cases hr : r ≤ 0
    · simp [hr] at hf
    · simp only [if_neg hr] at hf
      by_cases ha : max 0 (s.max_minutes - s.minutes_consumed) ≤ 0
      · rw [if_pos ha] at hf
        exact ih r b f hf
      · rw [if_neg ha] at hf
        rcases List.mem_cons.mp hf with h | h
        · subst h
          exact lt_min (lt_of_not_le ha) (lt_of_not_le hr)
        · exact ih _ _ f h

theorem deductLoop_subIds :
    ∀ (l : List Subscription) (r b : ℚ), ∀ f ∈ deductLoop l r b,
      f.subscription_id ∈ l.map (·.id) := by
  intro l
  induction l with
  | nil => intro r b f hf; simp [deductLoop] at hf
  | cons s rest ih =>
    intro r b f hf
    rw [deductLoop] at hf
    by_cases hr : r ≤ 0
    · simp [hr] at hf
    · simp only [if_neg hr] at hf
      by_cases ha : max 0 (s.max_minutes - s.minutes_consumed) ≤ 0
      · rw [if_pos ha] at hf
        exact List.mem_cons_of_mem _ (ih r b f hf)
      · rw [if_neg ha] at hf
        rcases List.mem_cons.mp hf with h | h
        · subst h
          exact List.mem_cons_self _ _
        · exact List.mem_cons_of_mem _ (ih _ _ f h)

theorem deductLoop_sum :
    ∀ (l : List Subscription) (r b : ℚ), 0 ≤ r →
      sumAmounts (deductLoop l r b) = min r (sumRemaining l) := by
  intro l
  induction l with
  | nil =>
    intro r b hr
    simp [deductLoop, sumAmounts, sumRemaining, min_eq_right hr]
  | cons s rest ih =>
    intro r b hr
    rw [deductLoop]
    by_cases hr0 : r ≤ 0
    · have : r = 0 := le_antisymm hr0 hr
      subst this
      simp [sumAmounts, min_eq_left (sumRemaining_nonneg (s :: rest))]
    · simp only [if_neg hr0]
      by_cases ha : max 0 (s.max_minutes - s.minutes_consumed) ≤ 0
      · rw [if_pos ha]
        have hz : remainingOf s = 0 :=
          le_antisymm (by simpa [remainingOf] using ha) (remainingOf_nonneg s)
        rw [ih r b hr, sumRemaining_cons, hz, zero_add]
      · rw [if_neg ha]
        set a := max 0 (s.max_minutes - s.minutes_consumed) with ha_def
        have haval : remainingOf s = a := rfl
        have hd : min a r ≤ r := min_le_right a r
        rw [sumAmounts_cons, ih _ _ (by linarith), sumRemaining_cons, haval]
        rcases le_total a r with hle | hle
        · rw [min_eq_left hle, ← min_add_add_left a (r - a) (sumRemaining rest)]
          have hra : a + (r - a) = r := by ring
          rw [hra]
        · rw [min_eq_right hle]
          have h1 : r - r = 0 := by ring
          rw [h1, min_eq_left (sumRemaining_nonneg rest), add_zero,
            min_eq_left (by linarith [sumRemaining_nonneg rest])]

end Neviso

namespace Neviso

/-- Total of the fragments the loop charged against one subscription. -/
def fragsFor (frags : List PendingTxn) (sid : Nat) : ℚ :=
  ((frags.filter fun f => decide (f.subscription_id = sid)).map (·.amount)).sum

theorem fragsFor_cons (f : PendingTxn) (frags : List PendingTxn) (sid : Nat) :
    fragsFor (f :: frags) sid
      = (if f.subscription_id = sid then f.amount else 0) + fragsFor frags sid := by
  by_cases h : f.subscription_id = sid <;> simp [fragsFor, List.filter_cons, h]

theorem fragsFor_eq_zero (frags : List PendingTxn) (sid : Nat)
    (h : ∀ f ∈ frags, f.subscription_id ≠ sid) : fragsFor frags sid = 0 := by
  unfold fragsFor
  have hnil : frags.filter (fun f => decide (f.subscription_id = sid)) = [] :=
    List.filter_eq_nil_iff.mpr (by intro f hf; simpa using h f hf)
  rw [hnil]
  rfl

theorem consumed_set_self (s : Subscription) :
    ({ s with minutes_consumed := s.minutes_consumed } : Subscription) = s := by
  cases s
  rfl

theorem applyDeductions_eq_map :
    ∀ (frags : List PendingTxn) (l : List Subscription),
      applyDeductions l frags = l.map fun s =>
        { s with minutes_consumed := s.minutes_consumed + fragsFor frags s.id } := by
  intro frags
  induction frags with
  | nil =>
    intro l
    have h : ∀ s ∈ l,
        ({ s with minutes_consumed := s.minutes_consumed + fragsFor [] s.id }
          : Subscription) = id s := by
      intro s _
      have : fragsFor [] s.id = 0 := rfl
      rw [this, add_zero, consumed_set_self]
      rfl
    have h0 : applyDeductions l [] = l := rfl
    rw [h0, List.map_congr_left h, List.map_id]
  | cons f fs ih =>
    intro l
    have hstep : applyDeductions l (f :: fs)
        = applyDeductions (addConsumed f.subscription_id f.amount l) fs := rfl
    rw [hstep, ih, addConsumed, List.map_map]
    apply List.map_congr_left
    intro s _
    simp only [Function.comp]
    by_cases h : s.id = f.subscription_id
    · rw [if_pos h, fragsFor_cons, if_pos h.symm]
      simp only
      rw [add_assoc]
    · rw [if_neg h, fragsFor_cons, if_neg (fun hh => h hh.symm), zero_add]

theorem sumRemaining_applyFrags :
    ∀ (l : List Subscription) (r b : ℚ), 0 ≤ r → (l.map (·.id)).Nodup →
      sumRemaining (l.map fun s =>
          { s with minutes_consumed :=
              s.minutes_consumed + fragsFor (deductLoop l r b) s.id })
        = sumRemaining l - sumAmounts (deductLoop l r b) := by
  intro l
  induction l with
  | nil =>
    intro r b _ _
    simp [deductLoop, sumRemaining, sumAmounts]
  | cons s rest ih =>
    intro r b hr hnd
    have hnds : s.id ∉ rest.map (·.id) := (List.nodup_cons.mp hnd).1
    have hndr : (rest.map (·.id)).Nodup := (List.nodup_cons.mp hnd).2
    have hneq : ∀ s' ∈ rest, s'.id ≠ s.id := by
      intro s' hs' h
      exact hnds (h ▸ List.mem_map_of_mem (·.id) hs')
    rw [deductLoop]
    by_cases hr0 : r ≤ 0
    · simp only [if_pos hr0]
      have hmap : ∀ x ∈ s :: rest,
          ({ x with minutes_consumed := x.minutes_consumed + fragsFor [] x.id }
            : Subscription) = id x := by
        intro x _
        have : fragsFor [] x.id = 0 := rfl
        rw [this, add_zero, consumed_set_self]
        rfl
      rw [List.map_congr_left hmap, List.map_id]
      simp [sumAmounts]
    · simp only [if_neg hr0]
      by_cases ha : max 0 (s.max_minutes - s.minutes_consumed) ≤ 0
      · rw [if_pos ha]
        have hF := deductLoop_subIds rest r b
        have hzero : fragsFor (deductLoop rest r b) s.id = 0 :=
          fragsFor_eq_zero _ _ (by
            intro f hf h
            exact hnds (h ▸ hF f hf))
        rw [List.map_cons, sumRemaining_cons, hzero, add_zero, consumed_set_self,
          sumRemaining_cons, ih r b hr hndr]
        ring
      · rw [if_neg ha]
        set a := max 0 (s.max_minutes - s.minutes_consumed) with ha_def
        set d := min a r with hd_def
        set F := deductLoop rest (r - d) (b - d) with hF_def
        have hFsub := deductLoop_subIds rest (r - d) (b - d)
        have hFzero : fragsFor F s.id = 0 :=
          fragsFor_eq_zero _ _ (by
            intro f hf h
            exact hnds (h ▸ hFsub f hf))
        have hhead : fragsFor (⟨s.id, d, b, b - d⟩ :: F) s.id = d := by
          rw [fragsFor_cons]
          simp [hFzero]
        have hda : d ≤ a := min_le_left a r
        have hapos : 0 < a := lt_of_not_le ha
        have hsub : s.max_minutes - s.minutes_consumed = a := by
          rw [ha_def]
          rcases (max_choice 0 (s.max_minutes - s.minutes_consumed)) with h | h
          · rw [ha_def] at hapos
            rw [h] at hapos
            exact absurd hapos (lt_irrefl 0)
          · rw [h]
        have hheadrem :
            remainingOf { s with minutes_consumed := s.minutes_consumed + d } = a - d := by
          unfold remainingOf
          simp only
          have h1 : s.max_minutes - (s.minutes_consumed + d) = a - d := by
            rw [← hsub]; ring
          rw [h1, max_eq_right (by linarith)]
        have htail : ∀ x ∈ rest,
            ({ x with minutes_consumed :=
                x.minutes_consumed + fragsFor (⟨s.id, d, b, b - d⟩ :: F) x.id }
              : Subscription)
              = { x with minutes_consumed := x.minutes_consumed + fragsFor F x.id } := by
          intro x hx
          rw [fragsFor_cons]
          simp only
          rw [if_neg (fun hh => hneq x hx hh.symm), zero_add]
        rw [List.map_cons, sumRemaining_cons, hhead, hheadrem,
          List.map_congr_left htail,
          ih (r - d) (b - d)
            (by
              have h1 : d ≤ r := by
                rw [hd_def]
                exact min_le_right a r
              linarith)
            hndr,
          sumRemaining_cons, sumAmounts_cons]
        have hrem : remainingOf s = a := rfl
        rw [hrem]
        ring

end Neviso

namespace Neviso

/-- A `minutes_consumed` update does not change the balance-query
predicate (it reads only `user_id`, `status`, `end_date`). -/
theorem isActiveFor_consumed_update (u : Nat) (now : ℤ) (s : Subscription) (v : ℚ) :
    isActiveFor u now { s with minutes_consumed := v } = isActiveFor u now s := rfl

theorem sumRemaining_sortByEndDate (l : List Subscription) :
    sumRemaining (sortByEndDate l) = sumRemaining l :=
  ((List.perm_insertionSort _ l).map remainingOf).sum_eq

theorem sumRemaining_perm {l₁ l₂ : List Subscription} (h : l₁.Perm l₂) :
    sumRemaining l₁ = sumRemaining l₂ :=
  (h.map remainingOf).sum_eq

theorem nodup_ids_activeSubsSorted (subs : List Subscription) (u : Nat) (now : ℤ)
    (hn : (subs.map (·.id)).Nodup) :
    ((activeSubsSorted subs u now).map (·.id)).Nodup := by
  have hfil : ((subs.filter (isActiveFor u now)).map (·.id)).Nodup :=
    hn.sublist ((subs.filter_sublist).map (·.id))
  have hperm := (List.perm_insertionSort
    (fun a b : Subscription => a.end_date ≤ b.end_date) (subs.filter (isActiveFor u now)))
  exact ((hperm.map (·.id)).nodup_iff).mpr hfil

/-- Successful deduction: when `0 ≤ amount ≤ balance`, `deduct_credits`
commits, the subscriptions get exactly the loop's fragments added to
`minutes_consumed`, and the balance drops by exactly `amount`. -/
theorem deduct_credits_ok (st : CreditState) (u : Nat) (X : ℚ) (note : Option Nat)
    (now : ℤ) (hn : (st.subs.map (·.id)).Nodup)
    (h0 : 0 ≤ X) (hle : X ≤ get_user_balance st u now) :
    deduct_credits st u X note now = Except.ok
      { subs := applyDeductions st.subs
          (deductLoop (activeSubsSorted st.subs u now) X (get_user_balance st u now)),
        transactions := st.transactions ++ stampTxns u note TxnType.deduct st.clock
          (deductLoop (activeSubsSorted st.subs u now) X (get_user_balance st u now)),
        clock := st.clock +
          (deductLoop (activeSubsSorted st.subs u now) X (get_user_balance st u now)).length } ∧
    ∀ st', deduct_credits st u X note now = Except.ok st' →
      get_user_balance st' u now = get_user_balance st u now - X := by
  have hnotlt : ¬ (get_user_balance st u now < X) := not_lt.mpr hle
  constructor
  · unfold deduct_credits
    rw [if_neg hnotlt]
  · intro st' hst'
    unfold deduct_credits at hst'
    rw [if_neg hnotlt] at hst'
    have hsubs : st'.subs = applyDeductions st.subs
        (deductLoop (activeSubsSorted st.subs u now) X (get_user_balance st u now)) := by
      cases hst'
      rfl
    set bal := get_user_balance st u now with hbal_def
    set L := activeSubsSorted st.subs u now with hL_def
    set frags := deductLoop L X bal with hfrags_def
    set upd := fun s : Subscription =>
      { s with minutes_consumed := s.minutes_consumed + fragsFor frags s.id } with hupd_def
    have hmap : st'.subs = st.subs.map upd := by
      rw [hsubs, applyDeductions_eq_map]
    have hfilter : (st'.subs.filter (isActiveFor u now))
        = (st.subs.filter (isActiveFor u now)).map upd := by
      rw [hmap, List.filter_map]
      congr 1
    have hbal' : get_user_balance st' u now
        = sumRemaining ((st.subs.filter (isActiveFor u now)).map upd) := by
      show sumRemaining (sortByEndDate (st'.subs.filter (isActiveFor u now)))
        = sumRemaining ((st.subs.filter (isActiveFor u now)).map upd)
      rw [sumRemaining_sortByEndDate, hfilter]
    have hpermL : L.Perm (st.subs.filter (isActiveFor u now)) :=
      List.perm_insertionSort _ _
    have hsum : sumRemaining ((st.subs.filter (isActiveFor u now)).map upd)
        = sumRemaining (L.map upd) :=
      (sumRemaining_perm (hpermL.map upd)).symm
    have hnodL : (L.map (·.id)).Nodup := nodup_ids_activeSubsSorted st.subs u now hn
    have hLsum : sumRemaining (L.map upd) = sumRemaining L - sumAmounts frags := by
      rw [hupd_def, hfrags_def]
      exact sumRemaining_applyFrags L X bal h0 hnodL
    have hLbal : sumRemaining L = bal := rfl
    have hAmt : sumAmounts frags = X := by
      rw [hfrags_def, deductLoop_sum L X bal h0, hLbal, min_eq_left hle]
    rw [hbal', hsum, hLsum, hLbal, hAmt]

end Neviso

namespace Neviso

/-! ### Claim C1 -/

/-- **C1.** For every owner and amount: if the balance (sum over
active, unexpired subscriptions of `max(0, total − consumed)`) is less
than the amount, `deduct_credits` raises `InsufficientCreditsError` and
the caller keeps the state unchanged — every `minutes_consumed` counter
and the transaction log untouched; if the balance equals the amount,
the deduction succeeds and the resulting balance is exactly 0. -/
theorem deduct_insufficient_and_boundary (st : CreditState) (u : Nat) (amount : ℚ)
    (note : Option Nat) (now : ℤ) (hn : (st.subs.map (·.id)).Nodup) :
    (get_user_balance st u now < amount →
      deductRun st u amount note now = (Except.error "InsufficientCreditsError", st)) ∧
    (get_user_balance st u now = amount →
      ∃ st', deduct_credits st u amount note now = Except.ok st' ∧
        get_user_balance st' u now = 0) := by
  constructor
  · intro hlt
    unfold deductRun deduct_credits
    rw [if_pos hlt]
  · intro heq
    have h0 : 0 ≤ amount := by
      rw [← heq]
      exact userBalance_nonneg st.subs u now
    have hle : amount ≤ get_user_balance st u now := le_of_eq heq.symm
    obtain ⟨hok, hbal⟩ := deduct_credits_ok st u amount note now hn h0 hle
    exact ⟨_, hok, by rw [hbal _ hok, heq, sub_self]⟩

/-- The boundary-scenario state: one active subscription with 60
minutes fully unconsumed. -/
def boundaryState : CreditState :=
  { subs := [⟨1, 7, 60, 0, 10, SubStatus.active⟩],
    transactions := [],
    clock := 0 }

/-- Witness for `deduct_insufficient_and_boundary`: balance is 60;
deducting 60.01 fails and leaves the state unchanged, deducting 60
succeeds and leaves balance 0. -/
theorem deduct_insufficient_and_boundary_witness :
    deductRun boundaryState 7 (60.01 : ℚ) none 0
        = (Except.error "InsufficientCreditsError", boundaryState) ∧
    ∃ st', deduct_credits boundaryState 7 (60 : ℚ) none 0 = Except.ok st' ∧
      get_user_balance st' 7 0 = 0 :=
  ⟨(deduct_insufficient_and_boundary boundaryState 7 (60.01 : ℚ) none 0 (by decide)).1
      (by norm_num [get_user_balance, userBalance, activeSubsSorted, sortByEndDate,
        isActiveFor, remainingOf, boundaryState, List.insertionSort, List.orderedInsert]),
   (deduct_insufficient_and_boundary boundaryState 7 (60 : ℚ) none 0 (by decide)).2
      (by norm_num [get_user_balance, userBalance, activeSubsSorted, sortByEndDate,
        isActiveFor, remainingOf, boundaryState, List.insertionSort, List.orderedInsert])⟩

end Neviso

namespace Neviso

/-! ### Refund lemmas -/

theorem orderedInsert_desc_append (t : CreditTransaction) :
    ∀ l : List CreditTransaction, (∀ y ∈ l, ¬ (y.created_at ≤ t.created_at)) →
      List.orderedInsert (fun a b => b.created_at ≤ a.created_at) t l = l ++ [t] := by
  intro l
  induction l with
  | nil => intro _; rfl
  | cons y ys ih =>
    intro h
    rw [List.orderedInsert, if_neg (h y (List.mem_cons_self y ys)),
      ih (fun z hz => h z (List.mem_cons_of_mem y hz))]
    rfl

/-- On a strictly increasing transaction list, sorting by `created_at`
descending is exactly reversal. -/
theorem sortByCreatedDesc_increasing :
    ∀ l : List CreditTransaction,
      l.Pairwise (fun a b => a.created_at < b.created_at) →
      sortByCreatedDesc l = l.reverse := by
  intro l
  induction l with
  | nil => intro _; rfl
  | cons t ts ih =>
    intro hp
    have h1 := (List.pairwise_cons.mp hp).1
    have h2 := (List.pairwise_cons.mp hp).2
    have hstep : sortByCreatedDesc (t :: ts)
        = List.orderedInsert (fun a b => b.created_at ≤ a.created_at) t
            (sortByCreatedDesc ts) := rfl
    rw [hstep, ih h2,
      orderedInsert_desc_append t ts.reverse
        (by
          intro y hy
          rw [List.mem_reverse] at hy
          exact not_le.mpr (h1 y hy)),
      List.reverse_cons]

theorem stampTxns_fields (u : Nat) (note : Option Nat) (tt : TxnType) :
    ∀ (frags : List PendingTxn) (clock : Nat) (t : CreditTransaction),
      t ∈ stampTxns u note tt clock frags →
      t.user_id = u ∧ t.note_id = note ∧ t.transaction_type = tt ∧
        clock ≤ t.created_at := by
  intro frags
  induction frags with
  | nil => intro clock t ht; simp [stampTxns] at ht
  | cons f fs ih =>
    intro clock t ht
    rw [stampTxns] at ht
    rcases List.mem_cons.mp ht with h | h
    · subst h
      exact ⟨rfl, rfl, rfl, le_refl _⟩
    · obtain ⟨ha, hb, hc, hd⟩ := ih (clock + 1) t h
      exact ⟨ha, hb, hc, le_trans (Nat.le_succ clock) hd⟩

theorem stampTxns_pairwise (u : Nat) (note : Option Nat) (tt : TxnType) :
    ∀ (frags : List PendingTxn) (clock : Nat),
      (stampTxns u note tt clock frags).Pairwise
        (fun a b => a.created_at < b.created_at) := by
  intro frags
  induction frags with
  | nil => intro clock; exact List.Pairwise.nil
  | cons f fs ih =>
    intro clock
    rw [stampTxns]
    refine List.pairwise_cons.mpr ⟨?_, ih (clock + 1)⟩
    intro t ht
    have := (stampTxns_fields u note tt fs (clock + 1) t ht).2.2.2
    show clock < t.created_at
    omega

theorem stampTxns_filter_deduct (u : Nat) (note : Option Nat)
    (clock : Nat) (frags : List PendingTxn) :
    (stampTxns u note TxnType.deduct clock frags).filter (isDeductFor u note)
      = stampTxns u note TxnType.deduct clock frags := by
  apply List.filter_eq_self.mpr
  intro t ht
  obtain ⟨h1, h2, h3, _⟩ := stampTxns_fields u note TxnType.deduct frags clock t ht
  simp [isDeductFor, h1, h2, h3]

theorem stampTxns_map_pair (u : Nat) (note : Option Nat) (tt : TxnType) :
    ∀ (frags : List PendingTxn) (clock : Nat),
      (stampTxns u note tt clock frags).map (fun t => (t.subscription_id, t.amount))
        = frags.map (fun f => (some f.subscription_id, f.amount)) := by
  intro frags
  induction frags with
  | nil => intro clock; rfl
  | cons f fs ih =>
    intro clock
    rw [stampTxns, List.map_cons, List.map_cons, ih (clock + 1)]

theorem stampTxns_map_amount (u : Nat) (note : Option Nat) (tt : TxnType) :
    ∀ (frags : List PendingTxn) (clock : Nat),
      (stampTxns u note tt clock frags).map (·.amount) = frags.map (·.amount) := by
  intro frags
  induction frags with
  | nil => intro clock; rfl
  | cons f fs ih =>
    intro clock
    rw [stampTxns, List.map_cons, List.map_cons, ih (clock + 1)]

end Neviso

namespace Neviso

/-- One deduct fragment as a consumed-counter increment. -/
def consumeStep (subs : List Subscription) (k : Nat × ℚ) : List Subscription :=
  addConsumed k.1 k.2 subs

/-- One refund fragment as a consumed-counter decrement floored at 0. -/
def releaseStep (subs : List Subscription) (k : Nat × ℚ) : List Subscription :=
  subs.map fun s =>
    if s.id = k.1 then
      { s with minutes_consumed := max 0 (s.minutes_consumed - k.2) }
    else s

theorem addConsumed_ids (sid : Nat) (d : ℚ) (l : List Subscription) :
    (addConsumed sid d l).map (·.id) = l.map (·.id) := by
  rw [addConsumed, List.map_map]
  apply List.map_congr_left
  intro s _
  by_cases h : s.id = sid <;> simp [h]

theorem setConsumed_ids (sid : Nat) (v : ℚ) (l : List Subscription) :
    (setConsumed sid v l).map (·.id) = l.map (·.id) := by
  rw [setConsumed, List.map_map]
  apply List.map_congr_left
  intro s _
  by_cases h : s.id = sid <;> simp [h]

theorem releaseStep_ids (subs : List Subscription) (k : Nat × ℚ) :
    (releaseStep subs k).map (·.id) = subs.map (·.id) := by
  rw [releaseStep, List.map_map]
  apply List.map_congr_left
  intro s _
  by_cases h : s.id = k.1 <;> simp [h]

theorem consumeStep_nonneg (subs : List Subscription) (k : Nat × ℚ)
    (hk : 0 ≤ k.2) (hs : ∀ s ∈ subs, 0 ≤ s.minutes_consumed) :
    ∀ s ∈ consumeStep subs k, 0 ≤ s.minutes_consumed := by
  intro s' hs'
  rw [consumeStep, addConsumed] at hs'
  obtain ⟨s, hsm, rfl⟩ := List.mem_map.mp hs'
  by_cases h : s.id = k.1
  · rw [if_pos h]
    exact add_nonneg (hs s hsm) hk
  · rw [if_neg h]
    exact hs s hsm

/-- Undoing the consume folds with release folds in reverse order
restores the subscription list exactly (no floor is hit because each
release takes back exactly what the matching consume added). -/
theorem release_consume_cancel :
    ∀ (ks : List (Nat × ℚ)) (subs : List Subscription),
      (∀ k ∈ ks, 0 ≤ k.2) → (∀ s ∈ subs, 0 ≤ s.minutes_consumed) →
      List.foldl releaseStep (List.foldl consumeStep subs ks) ks.reverse = subs := by
  intro ks
  induction ks with
  | nil => intro subs _ _; rfl
  | cons k ks ih =>
    intro subs hk hs
    rw [List.foldl_cons, List.reverse_cons, List.foldl_append]
    rw [ih (consumeStep subs k)
      (fun k' h => hk k' (List.mem_cons_of_mem _ h))
      (consumeStep_nonneg subs k (hk k (List.mem_cons_self _ _)) hs)]
    show List.foldl releaseStep (consumeStep subs k) [k] = subs
    rw [List.foldl_cons, List.foldl_nil, releaseStep, consumeStep, addConsumed,
      List.map_map]
    have hpt : ∀ s ∈ subs,
        ((fun s : Subscription =>
            if s.id = k.1 then
              { s with minutes_consumed := max 0 (s.minutes_consumed - k.2) }
            else s) ∘ fun s : Subscription =>
            if s.id = k.1 then
              { s with minutes_consumed := s.minutes_consumed + k.2 }
            else s) s = id s := by
      intro s hsm
      simp only [Function.comp]
      by_cases h : s.id = k.1
      · rw [if_pos h]
        have hid : ({ s with minutes_consumed := s.minutes_consumed + k.2 }
            : Subscription).id = k.1 := h
        rw [if_pos hid]
        simp only
        have hc : s.minutes_consumed + k.2 - k.2 = s.minutes_consumed := by ring
        rw [hc, max_eq_right (hs s hsm), consumed_set_self]
        rfl
      · rw [if_neg h, if_neg h]
        rfl
    rw [List.map_congr_left hpt, List.map_id]

end Neviso

namespace Neviso

theorem eq_of_nodup_ids :
    ∀ (l : List Subscription), (l.map (·.id)).Nodup →
      ∀ a ∈ l, ∀ b ∈ l, a.id = b.id → a = b := by
  intro l
  induction l with
  | nil => intro _ a ha; simp at ha
  | cons s rest ih =>
    intro hnd a ha b hb hab
    have hnds : s.id ∉ rest.map (·.id) := (List.nodup_cons.mp hnd).1
    have hndr : (rest.map (·.id)).Nodup := (List.nodup_cons.mp hnd).2
    rcases List.mem_cons.mp ha with ha' | ha' <;>
      rcases List.mem_cons.mp hb with hb' | hb'
    · rw [ha', hb']
    · subst ha'
      exact absurd (hab ▸ List.mem_map_of_mem (·.id) hb') hnds
    · subst hb'
      exact absurd (hab ▸ List.mem_map_of_mem (·.id) ha') hnds
    · exact ih hndr a ha' b hb' hab

theorem refundLoop_nonpos (ts : List CreditTransaction) (subs : List Subscription)
    (r b : ℚ) (hr : r ≤ 0) : refundLoop ts subs r b = (subs, []) := by
  cases ts with
  | nil => rfl
  | cons t ts => rw [refundLoop, if_pos hr]

/-- When the remaining amount equals exactly the total of a prefix of
the deduct rows being walked, the reversal loop gives each of those
rows its full amount back (and never reaches the rest), acting as the
fold of per-row floored decrements. -/
theorem refundLoop_exact :
    ∀ (ks : List (Nat × ℚ)) (ts rest : List CreditTransaction)
      (subs : List Subscription) (b : ℚ),
      ts.map (fun t => (t.subscription_id, t.amount))
        = ks.map (fun k => (some k.1, k.2)) →
      (∀ k ∈ ks, 0 < k.2) →
      (∀ k ∈ ks, k.1 ∈ subs.map (·.id)) →
      (subs.map (·.id)).Nodup →
      (refundLoop (ts ++ rest) subs ((ks.map Prod.snd).sum) b).1
        = List.foldl releaseStep subs ks := by
  intro ks
  induction ks with
  | nil =>
    intro ts rest subs b hmap _ _ _
    have hts : ts = [] := by
      have := congrArg List.length hmap
      simpa using List.eq_nil_of_length_eq_zero (by simpa using this)
    subst hts
    rw [List.nil_append, List.map_nil, List.sum_nil,
      refundLoop_nonpos rest subs 0 b (le_refl 0)]
    rfl
  | cons k ks ih =>
    intro ts rest subs b hmap hpos hpres hnd
    cases ts with
    | nil => simp at hmap
    | cons t ts' =>
      rw [List.map_cons, List.map_cons] at hmap
      have h1 : (t.subscription_id, t.amount) = (some k.1, k.2) :=
        (List.cons.injEq _ _ _ _ ▸ hmap).1
      have h2 : ts'.map (fun t => (t.subscription_id, t.amount))
          = ks.map (fun k => (some k.1, k.2)) :=
        (List.cons.injEq _ _ _ _ ▸ hmap).2
      have hsid : t.subscription_id = some k.1 := congrArg Prod.fst h1
      have hamt : t.amount = k.2 := congrArg Prod.snd h1
      have hsumtail : 0 ≤ (ks.map Prod.snd).sum :=
        List.sum_nonneg (by
          intro x hx
          obtain ⟨k', hk', rfl⟩ := List.mem_map.mp hx
          exact le_of_lt (hpos k' (List.mem_cons_of_mem _ hk')))
      have hkpos : 0 < k.2 := hpos k (List.mem_cons_self _ _)
      have hsum_cons : ((k :: ks).map Prod.snd).sum = k.2 + (ks.map Prod.snd).sum := by
        rw [List.map_cons, List.sum_cons]
      have hrpos : 0 < ((k :: ks).map Prod.snd).sum := by
        rw [hsum_cons]
        linarith
      obtain ⟨s₀, hs₀mem, hs₀id⟩ : ∃ s ∈ subs, s.id = k.1 := by
        obtain ⟨s, hs, hid⟩ := List.mem_map.mp (hpres k (List.mem_cons_self _ _))
        exact ⟨s, hs, hid⟩
      have hfindsome : (subs.find? (fun s => decide (s.id = k.1))).isSome := by
        rw [List.find?_isSome]
        exact ⟨s₀, hs₀mem, by simpa using hs₀id⟩
      obtain ⟨sub, hfind⟩ := Option.isSome_iff_exists.mp hfindsome
      have hsubmem : sub ∈ subs := List.mem_of_find?_eq_some hfind
      have hsubid : sub.id = k.1 := by
        have := List.find?_some hfind
        simpa using this
      have hx : min t.amount ((k :: ks).map Prod.snd).sum = k.2 := by
        rw [hamt, hsum_cons]
        exact min_eq_left (by linarith)
      have hset : setConsumed k.1
          (max 0 (sub.minutes_consumed - min t.amount ((k :: ks).map Prod.snd).sum))
          subs = releaseStep subs k := by
        rw [hx, releaseStep, setConsumed]
        apply List.map_congr_left
        intro s hs
        by_cases h : s.id = k.1
        · rw [if_pos h, if_pos h]
          have hseq : s = sub :=
            eq_of_nodup_ids subs hnd s hs sub hsubmem (h.trans hsubid.symm)
          rw [hseq]
        · rw [if_neg h, if_neg h]
      have hrw : refundLoop ((t :: ts') ++ rest) subs ((k :: ks).map Prod.snd).sum b
          = ((refundLoop (ts' ++ rest) (releaseStep subs k)
                (((k :: ks).map Prod.snd).sum - min t.amount ((k :: ks).map Prod.snd).sum)
                (b + min t.amount ((k :: ks).map Prod.snd).sum)).1,
             ⟨k.1, min t.amount ((k :: ks).map Prod.snd).sum, b,
               b + min t.amount ((k :: ks).map Prod.snd).sum⟩
               :: (refundLoop (ts' ++ rest) (releaseStep subs k)
                (((k :: ks).map Prod.snd).sum - min t.amount ((k :: ks).map Prod.snd).sum)
                (b + min t.amount ((k :: ks).map Prod.snd).sum)).2) := by
        rw [List.cons_append, refundLoop, if_neg (not_le.mpr hrpos), hsid]
        simp only [hfind, hset]
      rw [hrw]
      simp only
      have hrest : ((k :: ks).map Prod.snd).sum
          - min t.amount ((k :: ks).map Prod.snd).sum = (ks.map Prod.snd).sum := by
        rw [hx, hsum_cons]
        ring
      rw [hrest, List.foldl_cons]
      exact ih ts' rest (releaseStep subs k) _ h2
        (fun k' h => hpos k' (List.mem_cons_of_mem _ h))
        (by
          intro k' h
          rw [releaseStep_ids]
          exact hpres k' (List.mem_cons_of_mem _ h))
        (by rw [releaseStep_ids]; exact hnd)

end Neviso

namespace Neviso

theorem applyDeductions_ids (l : List Subscription) (frags : List PendingTxn) :
    (applyDeductions l frags).map (·.id) = l.map (·.id) := by
  rw [applyDeductions_eq_map, List.map_map]
  apply List.map_congr_left
  intro s _
  rfl

/-! ### Claim C2 -/

/-- **C2.** For every owner, amount `X` with `0 ≤ X ≤ balance`, and job
reference, `deduct(owner, X, job)` followed by `refund(owner, X, job)`
restores every subscription — hence `balance(owner)` — to exactly its
pre-deduction value.  The state hypotheses say the store is well
formed: unique subscription ids, nonnegative consumed counters, and
ledger timestamps strictly increasing and below the clock. -/
theorem deduct_refund_roundtrip (st : CreditState) (u : Nat) (X : ℚ)
    (note : Option Nat) (now : ℤ)
    (hn : (st.subs.map (·.id)).Nodup)
    (hc : ∀ s ∈ st.subs, 0 ≤ s.minutes_consumed)
    (ht : st.transactions.Pairwise (fun a b => a.created_at < b.created_at))
    (hclk : ∀ t ∈ st.transactions, t.created_at < st.clock)
    (hX : 0 ≤ X) (hle : X ≤ get_user_balance st u now) :
    ∃ st', deduct_credits st u X note now = Except.ok st' ∧
      (refund_credits st' u X note now).subs = st.subs ∧
      get_user_balance (refund_credits st' u X note now) u now
        = get_user_balance st u now := by
  obtain ⟨hok, -⟩ := deduct_credits_ok st u X note now hn hX hle
  set bal := get_user_balance st u now with hbal
  set L := activeSubsSorted st.subs u now with hL
  set frags := deductLoop L X bal with hfrags
  set stamped := stampTxns u note TxnType.deduct st.clock frags with hstamped
  set R : CreditState :=
    { subs := applyDeductions st.subs frags,
      transactions := st.transactions ++ stamped,
      clock := st.clock + frags.length } with hR
  have hRsubs : R.subs = applyDeductions st.subs frags := rfl
  have hRtxns : R.transactions = st.transactions ++ stamped := rfl
  refine ⟨R, hok, ?_⟩
  have hfilterR : R.transactions.filter (isDeductFor u note)
      = st.transactions.filter (isDeductFor u note) ++ stamped := by
    rw [hRtxns, List.filter_append, hstamped, stampTxns_filter_deduct]
  have hpw : (st.transactions.filter (isDeductFor u note) ++ stamped).Pairwise
      (fun a b => a.created_at < b.created_at) := by
    apply List.pairwise_append.mpr
    refine ⟨ht.sublist (List.filter_sublist _),
      hstamped ▸ stampTxns_pairwise u note TxnType.deduct frags st.clock, ?_⟩
    intro a ha b hb
    have ha' : a ∈ st.transactions := List.mem_of_mem_filter ha
    rw [hstamped] at hb
    have hb' := (stampTxns_fields u note TxnType.deduct frags st.clock b hb).2.2.2
    have := hclk a ha'
    omega
  have hdts : sortByCreatedDesc (R.transactions.filter (isDeductFor u note))
      = stamped.reverse ++ (st.transactions.filter (isDeductFor u note)).reverse := by
    rw [hfilterR, sortByCreatedDesc_increasing _ hpw, List.reverse_append]
  have hpos0 : ∀ f ∈ frags, 0 < f.amount := by
    rw [hfrags]
    exact deductLoop_amounts_pos L X bal
  have hpres0 : ∀ f ∈ frags, f.subscription_id ∈ st.subs.map (·.id) := by
    intro f hf
    rw [hfrags] at hf
    have h1 := deductLoop_subIds L X bal f hf
    obtain ⟨s, hsL, hid⟩ := List.mem_map.mp h1
    have hperm : L.Perm (st.subs.filter (isActiveFor u now)) := by
      rw [hL]
      exact List.perm_insertionSort _ _
    have hsf : s ∈ st.subs.filter (isActiveFor u now) := hperm.mem_iff.mp hsL
    have hss : s ∈ st.subs := List.mem_of_mem_filter hsf
    exact hid ▸ List.mem_map_of_mem (·.id) hss
  set ks := (frags.map fun f => (f.subscription_id, f.amount)).reverse with hks
  have hmapts : (stamped.reverse.map fun t => (t.subscription_id, t.amount))
      = ks.map (fun k => (some k.1, k.2)) := by
    rw [List.map_reverse, hstamped, stampTxns_map_pair, hks, List.map_reverse,
      List.map_map]
    rfl
  have hpos : ∀ k ∈ ks, 0 < k.2 := by
    intro k hk
    rw [hks, List.mem_reverse] at hk
    obtain ⟨f, hf, rfl⟩ := List.mem_map.mp hk
    exact hpos0 f hf
  have hRids : R.subs.map (·.id) = st.subs.map (·.id) := by
    rw [hRsubs]
    exact applyDeductions_ids st.subs frags
  have hpres : ∀ k ∈ ks, k.1 ∈ R.subs.map (·.id) := by
    intro k hk
    rw [hks, List.mem_reverse] at hk
    obtain ⟨f, hf, rfl⟩ := List.mem_map.mp hk
    rw [hRids]
    exact hpres0 f hf
  have hndR : (R.subs.map (·.id)).Nodup := by
    rw [hRids]
    exact hn
  have hsumks : (ks.map Prod.snd).sum = X := by
    rw [hks, List.map_reverse, List.sum_reverse, List.map_map]
    have hmm : frags.map (Prod.snd ∘ fun f => (f.subscription_id, f.amount))
        = frags.map (·.amount) := rfl
    rw [hmm]
    show sumAmounts frags = X
    have hLb : sumRemaining L = bal := rfl
    rw [hfrags, deductLoop_sum L X bal hX, hLb, min_eq_left hle]
  have hloop := refundLoop_exact ks stamped.reverse
    (st.transactions.filter (isDeductFor u note)).reverse R.subs
    (get_user_balance R u now) hmapts hpos hpres hndR
  have hrefsubs : (refund_credits R u X note now).subs
      = (refundLoop (sortByCreatedDesc (R.transactions.filter (isDeductFor u note)))
          R.subs X (get_user_balance R u now)).1 := rfl
  have happ : applyDeductions st.subs frags
      = List.foldl consumeStep st.subs (frags.map fun f => (f.subscription_id, f.amount)) := by
    rw [List.foldl_map]
    rfl
  have hsubs_eq : (refund_credits R u X note now).subs = st.subs := by
    rw [hrefsubs, hdts, ← hsumks, hloop, hRsubs, happ, hks]
    exact release_consume_cancel (frags.map fun f => (f.subscription_id, f.amount))
      st.subs
      (by
        intro k hk
        obtain ⟨f, hf, rfl⟩ := List.mem_map.mp hk
        exact le_of_lt (hpos0 f hf))
      hc
  refine ⟨hsubs_eq, ?_⟩
  show userBalance (refund_credits R u X note now).subs u now = get_user_balance st u now
  rw [hsubs_eq]
  rfl

end Neviso

namespace Neviso

/-- Witness for `deduct_refund_roundtrip`: deducting 20 from the
60-minute subscription and refunding 20 for the same note restores the
subscription list and the balance exactly. -/
theorem deduct_refund_roundtrip_witness :
    ∃ st', deduct_credits boundaryState 7 20 (some 5) 0 = Except.ok st' ∧
      (refund_credits st' 7 20 (some 5) 0).subs = boundaryState.subs ∧
      get_user_balance (refund_credits st' 7 20 (some 5) 0) 7 0
        = get_user_balance boundaryState 7 0 :=
  deduct_refund_roundtrip boundaryState 7 20 (some 5) 0
    (by decide)
    (by
      intro s hs
      simp only [boundaryState, List.mem_singleton] at hs
      subst hs
      norm_num)
    (by simp [boundaryState])
    (by
      intro t htm
      simp [boundaryState] at htm)
    (by norm_num)
    (by norm_num [get_user_balance, userBalance, activeSubsSorted, sortByEndDate,
      isActiveFor, remainingOf, boundaryState, List.insertionSort, List.orderedInsert])

end Neviso

namespace Neviso

/-! ### Claim C7 -/

/-- One subscription of 100 minutes, used to exercise a double refund. -/
def doubleRefundState : CreditState :=
  { subs := [⟨1, 7, 100, 0, 100, SubStatus.active⟩],
    transactions := [],
    clock := 0 }

/-- **C7, counterexample.** `refund_credits` is not idempotent per job:
deduct 10 for note 1, deduct 20 for note 2, then refund note 1 fully
(balance 80, consumed 20).  Issuing the same refund for note 1 again
finds the still-present `deduct` ledger row and reverses it a second
time: consumed drops to 10 and the balance rises to 90 — the owner is
refunded twice for one job. -/
theorem refund_not_idempotent_cex :
    (let st1 := (deductRun doubleRefundState 7 10 (some 1) 0).2
     let st2 := (deductRun st1 7 20 (some 2) 0).2
     let st3 := refund_credits st2 7 10 (some 1) 0
     let st4 := refund_credits st3 7 10 (some 1) 0
     get_user_balance st3 7 0 = 80 ∧
     (st3.subs.map fun s => s.minutes_consumed) = [20] ∧
     get_user_balance st4 7 0 = 90 ∧
     (st4.subs.map fun s => s.minutes_consumed) = [10]) := by
  norm_num [deductRun, deduct_credits, refund_credits, get_user_balance,
    userBalance, activeSubsSorted, sortByEndDate, isActiveFor, remainingOf,
    deductLoop, applyDeductions, addConsumed, stampTxns, sortByCreatedDesc,
    isDeductFor, refundLoop, setConsumed, doubleRefundState,
    List.insertionSort, List.orderedInsert, List.find?, List.filter]

/-- The reversal loop leaves the store untouched when every referenced
subscription is already at `minutes_consumed = 0`. -/
theorem refund_noop_loop :
    ∀ (ts : List CreditTransaction) (subs : List Subscription) (r b : ℚ),
      (∀ t ∈ ts, 0 ≤ t.amount) →
      (∀ t ∈ ts, ∀ s ∈ subs, t.subscription_id = some s.id →
        s.minutes_consumed = 0) →
      (refundLoop ts subs r b).1 = subs := by
  intro ts
  induction ts with
  | nil => intro subs r b _ _; rfl
  | cons t ts ih =>
    intro subs r b hamt hz
    by_cases hr : r ≤ 0
    · rw [refundLoop, if_pos hr]
    · rw [refundLoop, if_neg hr]
      cases hsid : t.subscription_id with
      | none =>
        exact ih subs r b (fun t' h => hamt t' (List.mem_cons_of_mem _ h))
          (fun t' h => hz t' (List.mem_cons_of_mem _ h))
      | some sid =>
        cases hfind : subs.find? (fun s => decide (s.id = sid)) with
        | none =>
          simp only [hfind]
          exact ih subs r b (fun t' h => hamt t' (List.mem_cons_of_mem _ h))
            (fun t' h => hz t' (List.mem_cons_of_mem _ h))
        | some sub =>
          have hsubmem : sub ∈ subs := List.mem_of_find?_eq_some hfind
          have hsubid : sub.id = sid := by simpa using List.find?_some hfind
          have hc0 : sub.minutes_consumed = 0 :=
            hz t (List.mem_cons_self _ _) sub hsubmem (by rw [hsid, hsubid])
          have hxnn : 0 ≤ min t.amount r :=
            le_min (hamt t (List.mem_cons_self _ _)) (le_of_lt (not_le.mp hr))
          have hnewc : max 0 (sub.minutes_consumed - min t.amount r) = 0 := by
            rw [hc0]
            exact max_eq_left (by linarith)
          have hset : setConsumed sid
              (max 0 (sub.minutes_consumed - min t.amount r)) subs = subs := by
            rw [hnewc, setConsumed]
            have hpt : ∀ s ∈ subs,
                (if s.id = sid then
                  ({ s with minutes_consumed := (0 : ℚ) } : Subscription)
                else s) = id s := by
              intro s hsm
              by_cases h : s.id = sid
              · rw [if_pos h]
                have hs0 : s.minutes_consumed = 0 :=
                  hz t (List.mem_cons_self _ _) s hsm (by rw [hsid, h])
                rw [← hs0, consumed_set_self]
                rfl
              · rw [if_neg h]
                rfl
            rw [List.map_congr_left hpt, List.map_id]
          simp only [hfind, hset]
          exact ih subs (r - min t.amount r) (b + min t.amount r)
            (fun t' h => hamt t' (List.mem_cons_of_mem _ h))
            (fun t' h => hz t' (List.mem_cons_of_mem _ h))

/-- **C7, amended.** A repeated refund for a job leaves every
subscription's consumed counter — and hence the balance — unchanged
precisely in the situation where every subscription referenced by the
job's `deduct` ledger rows already has `minutes_consumed = 0` (the
floor absorbs the repeat).  In general the code does not guard against
double refunds (see the counterexample). -/
theorem refund_noop_on_zero_consumed (st : CreditState) (u : Nat) (X : ℚ)
    (note : Option Nat) (now : ℤ)
    (hamt : ∀ t ∈ st.transactions, isDeductFor u note t = true → 0 ≤ t.amount)
    (hz : ∀ t ∈ st.transactions, isDeductFor u note t = true →
      ∀ s ∈ st.subs, t.subscription_id = some s.id → s.minutes_consumed = 0) :
    (refund_credits st u X note now).subs = st.subs ∧
    get_user_balance (refund_credits st u X note now) u now
      = get_user_balance st u now := by
  have hmem : ∀ t ∈ sortByCreatedDesc (st.transactions.filter (isDeductFor u note)),
      t ∈ st.transactions ∧ isDeductFor u note t = true := by
    intro t htm
    have hperm : (sortByCreatedDesc (st.transactions.filter (isDeductFor u note))).Perm
        (st.transactions.filter (isDeductFor u note)) :=
      List.perm_insertionSort _ _
    exact List.mem_filter.mp (hperm.mem_iff.mp htm)
  have h1 := refund_noop_loop
    (sortByCreatedDesc (st.transactions.filter (isDeductFor u note))) st.subs X
    (get_user_balance st u now)
    (fun t ht => hamt t (hmem t ht).1 (hmem t ht).2)
    (fun t ht => hz t (hmem t ht).1 (hmem t ht).2)
  have hrefsubs : (refund_credits st u X note now).subs
      = (refundLoop (sortByCreatedDesc (st.transactions.filter (isDeductFor u note)))
          st.subs X (get_user_balance st u now)).1 := rfl
  have hsubs : (refund_credits st u X note now).subs = st.subs := by
    rw [hrefsubs, h1]
  refine ⟨hsubs, ?_⟩
  show userBalance (refund_credits st u X note now).subs u now
    = get_user_balance st u now
  rw [hsubs]
  rfl

/-- A fully refunded job's state: the subscription's consumed counter
is back at 0 while the `deduct` ledger row for note 1 remains. -/
def refundedState : CreditState :=
  { subs := [⟨1, 7, 100, 0, 100, SubStatus.active⟩],
    transactions := [⟨7, some 1, some 1, TxnType.deduct, 5, 100, 95, 0⟩,
                     ⟨7, some 1, some 1, TxnType.refund, 5, 95, 100, 1⟩],
    clock := 2 }

/-- Witness for `refund_noop_on_zero_consumed`. -/
theorem refund_noop_on_zero_consumed_witness :
    (refund_credits refundedState 7 5 (some 1) 0).subs = refundedState.subs ∧
    get_user_balance (refund_credits refundedState 7 5 (some 1) 0) 7 0
      = get_user_balance refundedState 7 0 :=
  refund_noop_on_zero_consumed refundedState 7 5 (some 1) 0
    (by
      intro t ht hd
      simp only [refundedState, List.mem_cons, List.mem_singleton] at ht
      rcases ht with h | h | h
      · rw [h]; norm_num
      · rw [h]; norm_num
      · simp at h)
    (by
      intro t ht hd s hs hid
      simp only [refundedState, List.mem_cons, List.mem_singleton] at ht hs
      rcases hs with hs | hs
      · rw [hs]
      · simp at hs)

end Neviso

namespace Neviso

/-! ## Admission-control queue (`app/services/queue_service.py`)

`ProcessingQueue` rows are the durable queue entries; the Redis sorted
set `neviso:processing_queue`, the per-user rate counter and the
`neviso:processing_count` counter become fields of `QueueState`.  The
configuration values read from `settings` are a `QueueConfig`
parameter. -/

/-- `QueueStatus` from `app/db/models.py`. -/
inductive QueueStatus where
  | waiting
  | processing
  | completed
  | failed
  deriving DecidableEq, Repr

/-- A `ProcessingQueue` row. -/
structure ProcessingQueueEntry where
  id : Nat
  note_id : Nat
  user_id : Nat
  priority : Int
  status : QueueStatus
  retry_count : Nat
  estimated_credits : Option ℚ
  added_at : Int
  started_at : Option Int
  completed_at : Option Int
  error_message : Option String
  deriving DecidableEq, Repr

/-- A `UserQuota` row (the fields the queue manager touches). -/
structure UserQuotaRow where
  user_id : Nat
  daily_upload_count : Nat
  last_upload_at : Option Int
  total_minutes_used_today : ℚ
  last_reset_at : Int
  deriving DecidableEq, Repr

/-- The projection of a `UserSubscription` row joined with its plan
that `get_user_priority` reads: `features_priority` is
`plan.features.get('priority')` when `features` is truthy and carries
that key, `none` otherwise. -/
structure PrioSub where
  user_id : Nat
  status : SubStatus
  end_date : Int
  features_priority : Option String
  deriving DecidableEq, Repr

/-- The shared state the queue manager operates on. -/
structure QueueState where
  dbQueue : List ProcessingQueueEntry
  quotas : List UserQuotaRow
  subs : List PrioSub
  minuteCounts : List (Nat × Nat)
  redisQueue : List (Nat × Int)
  processingCount : Int
  nextQueueId : Nat
  deriving DecidableEq, Repr

/-- The `settings` values the queue manager reads. -/
structure QueueConfig where
  MAX_USER_UPLOADS_PER_MINUTE : Nat
  MAX_USER_UPLOADS_PER_DAY : Nat
  MAX_CONCURRENT_PROCESSING : Int
  deriving DecidableEq, Repr

/-- The dict returned by `add_to_queue` (`position` and the wait
estimate are only present on a fresh insert). -/
structure QueueReply where
  queue_id : Nat
  status : QueueStatus
  priority : Int
  position : Option Int
  deriving DecidableEq, Repr

/-- The dict returned by `get_next_task`. -/
structure TaskDescriptor where
  note_id : Nat
  user_id : Nat
  priority : Int
  queue_id : Nat
  deriving DecidableEq, Repr

/-- `redis.get` on the per-user minute counter. -/
def lookupMinuteCount (l : List (Nat × Nat)) (u : Nat) : Option Nat :=
  (l.find? fun p => decide (p.1 = u)).map Prod.snd

/-- Write the per-user minute counter. -/
def setMinuteCount (l : List (Nat × Nat)) (u : Nat) (v : Nat) : List (Nat × Nat) :=
  if (l.find? fun p => decide (p.1 = u)).isSome then
    l.map fun p => if p.1 = u then (u, v) else p
  else l ++ [(u, v)]

/-- `SELECT ... FROM user_quotas WHERE user_id = u` (unique row). -/
def findQuota (l : List UserQuotaRow) (u : Nat) : Option UserQuotaRow :=
  l.find? fun q => decide (q.user_id = u)

/-- Mutate this user's quota row. -/
def updateQuota (l : List UserQuotaRow) (u : Nat) (f : UserQuotaRow → UserQuotaRow) :
    List UserQuotaRow :=
  l.map fun q => if q.user_id = u then f q else q

/-- The daily-counter reset of `check_user_rate_limit`. -/
def resetQuotaRow (today : Int) (q : UserQuotaRow) : UserQuotaRow :=
  { q with
    daily_upload_count := 0
    total_minutes_used_today := 0
    last_reset_at := today }

/-- `QueueManager.check_user_rate_limit`.  Checks the Redis per-minute
counter, then the per-day counter from the quota row, resetting the
daily counters first when the UTC day rolled over (that reset is
committed even if the daily check then raises, so the post-call state
is returned alongside the verdict).  The generic
`except Exception: return True` fail-open arm has no counterpart here
because the model's operations cannot fail. -/
def check_user_rate_limit (st : QueueState) (cfg : QueueConfig) (u : Nat)
    (today : Int) : Except String Unit × QueueState :=
  let minuteBlocked : Bool :=
    match lookupMinuteCount st.minuteCounts u with
    | some c => decide (c ≥ cfg.MAX_USER_UPLOADS_PER_MINUTE)
    | none => false
  if minuteBlocked then (Except.error "RateLimitExceededError", st)
  else
    match findQuota st.quotas u with
    | none => (Except.ok (), st)
    | some q =>
      let reset := q.last_reset_at < today
      let st' := if reset then
          { st with quotas := updateQuota st.quotas u (resetQuotaRow today) }
        else st
      let dailyCount := if reset then 0 else q.daily_upload_count
      if dailyCount ≥ cfg.MAX_USER_UPLOADS_PER_DAY then
        (Except.error "RateLimitExceededError", st')
      else (Except.ok (), st')

/-- The daily-counter bump of `increment_user_counters`. -/
def bumpQuotaRow (now : Int) (q : UserQuotaRow) : UserQuotaRow :=
  { q with
    daily_upload_count := q.daily_upload_count + 1
    last_upload_at := some now }

/-- `QueueManager.increment_user_counters`: `INCR` the Redis minute
counter (TTL not modelled) and bump the daily counter, creating the
quota row on first upload. -/
def increment_user_counters (st : QueueState) (u : Nat) (now today : Int) :
    QueueState :=
  let mc := match lookupMinuteCount st.minuteCounts u with
    | some c => c + 1
    | none => 1
  let st₁ := { st with minuteCounts := setMinuteCount st.minuteCounts u mc }
  match findQuota st₁.quotas u with
  | some _ => { st₁ with quotas := updateQuota st₁.quotas u (bumpQuotaRow now) }
  | none => { st₁ with quotas := st₁.quotas ++ [⟨u, 1, some now, 0, today⟩] }

/-- The WHERE clause of `get_user_priority`'s subscription query. -/
def isActivePrioSub (u : Nat) (now : Int) (s : PrioSub) : Bool :=
  decide (s.user_id = u ∧ s.status = SubStatus.active ∧ now < s.end_date)

/-- The scan over active subscriptions: the first one whose plan
features mark priority `high` gives 2, `medium` gives 1; otherwise any
active subscription defaults to 1. -/
def priorityScan : List PrioSub → Int
  | [] => 1
  | s :: rest =>
    match s.features_priority with
    | some p => if p = "high" then 2 else if p = "medium" then 1 else priorityScan rest
    | none => priorityScan rest

/-- `QueueManager.get_user_priority` (errors fall back to 0; the model
cannot fail, so only the no-subscription fallback 0 appears). -/
def get_user_priority (st : QueueState) (u : Nat) (now : Int) : Int :=
  let subs := st.subs.filter (isActivePrioSub u now)
  if subs.isEmpty then 0 else priorityScan subs

/-- `redis.zadd`: update the member's score or insert it. -/
def zadd (l : List (Nat × Int)) (member : Nat) (score : Int) : List (Nat × Int) :=
  if (l.find? fun p => decide (p.1 = member)).isSome then
    l.map fun p => if p.1 = member then (member, score) else p
  else l ++ [(member, score)]

/-- `redis.zrem`. -/
def zrem (l : List (Nat × Int)) (member : Nat) : List (Nat × Int) :=
  l.filter fun p => decide (p.1 ≠ member)

/-- A member `a` precedes member `b` in `zrevrange` order when it has
the higher score, ties broken by reverse lexicographic order of the
member strings (redis members here are decimal note ids). -/
def zrevBefore (a b : Nat × Int) : Prop :=
  b.2 < a.2 ∨ (b.2 = a.2 ∧ Nat.repr b.1 < Nat.repr a.1)

instance : DecidableRel zrevBefore := fun a b => by
  unfold zrevBefore
  infer_instance

/-- `redis.zrevrange(key, 0, 0)`: the member ranked first. -/
def zrevrangeTop (l : List (Nat × Int)) : Option (Nat × Int) :=
  match l with
  | [] => none
  | p :: rest => some (rest.foldl (fun best q => if zrevBefore q best then q else best) p)

/-- `redis.zrevrank`, 1-based as `get_queue_position` returns it,
`-1` when the member is absent. -/
def get_queue_position (l : List (Nat × Int)) (note_id : Nat) : Int :=
  match l.find? (fun p => decide (p.1 = note_id)) with
  | none => -1
  | some p => 1 + ((l.filter fun q => decide (zrevBefore q p)).length : Int)

/-- `QueueManager.add_to_queue`.  Rate-check (which may commit a daily
reset and may raise), compute the priority, return the existing entry
if the note is already queued, otherwise insert the row, add the
ranking entry with score `priority * 1000000 - now`, and bump the
owner's counters. -/
def add_to_queue (st : QueueState) (cfg : QueueConfig) (note_id u : Nat)
    (estimated_credits : Option ℚ) (now today : Int) :
    Except String QueueReply × QueueState :=
  match check_user_rate_limit st cfg u today with
  | (Except.error e, st₁) => (Except.error e, st₁)
  | (Except.ok _, st₁) =>
    let priority := get_user_priority st₁ u now
    match st₁.dbQueue.find? (fun e => decide (e.note_id = note_id)) with
    | some existing =>
        (Except.ok
          { queue_id := existing.id
            status := existing.status
            priority := existing.priority
            position := none }, st₁)
    | none =>
        let entry : ProcessingQueueEntry :=
          { id := st₁.nextQueueId
            note_id := note_id
            user_id := u
            priority := priority
            status := QueueStatus.waiting
            retry_count := 0
            estimated_credits := estimated_credits
            added_at := now
            started_at := none
            completed_at := none
            error_message := none }
        let st₂ := { st₁ with
          dbQueue := st₁.dbQueue ++ [entry]
          nextQueueId := st₁.nextQueueId + 1 }
        let score := priority * 1000000 - now
        let st₃ := { st₂ with redisQueue := zadd st₂.redisQueue note_id score }
        let st₄ := increment_user_counters st₃ u now today
        let position := get_queue_position st₄.redisQueue note_id
        (Except.ok
          { queue_id := entry.id
            status := QueueStatus.waiting
            priority := priority
            position := some position }, st₄)

/-- The WHERE clause of `get_next_task`'s queue-entry query. -/
def findWaitingEntry (l : List ProcessingQueueEntry) (note_id : Nat) :
    Option ProcessingQueueEntry :=
  l.find? fun e => decide (e.note_id = note_id ∧ e.status = QueueStatus.waiting)

/-- `queue_entry.status = processing; queue_entry.started_at = utcnow()`
on the matched waiting row. -/
def setEntryProcessing (l : List ProcessingQueueEntry) (note_id : Nat) (now : Int) :
    List ProcessingQueueEntry :=
  l.map fun e =>
    if e.note_id = note_id ∧ e.status = QueueStatus.waiting then
      { e with
        status := QueueStatus.processing
        started_at := some now }
    else e

/-- The recursion of `get_next_task`, fuelled: each stale retry removes
one ranking entry, so `redisQueue.length + 1` steps always suffice and
the fuel-exhausted arm is unreachable from the wrapper. -/
def getNextTaskAux (cfg : QueueConfig) (now : Int) :
    Nat → QueueState → Option TaskDescriptor × QueueState
  | 0, st => (none, st)
  | fuel + 1, st =>
    if st.processingCount ≥ cfg.MAX_CONCURRENT_PROCESSING then (none, st)
    else
      match zrevrangeTop st.redisQueue with
      | none => (none, st)
      | some p =>
        match findWaitingEntry st.dbQueue p.1 with
        | none =>
            getNextTaskAux cfg now fuel
              { st with redisQueue := zrem st.redisQueue p.1 }
        | some e =>
            (some
              { note_id := p.1
                user_id := e.user_id
                priority := e.priority
                queue_id := e.id },
             { st with
               dbQueue := setEntryProcessing st.dbQueue p.1 now
               redisQueue := zrem st.redisQueue p.1
               processingCount := st.processingCount + 1 })

/-- `QueueManager.get_next_task`: nothing at capacity, otherwise pop the
top-ranked note; a ranking entry with no waiting row is discarded and
the lookup retried. -/
def get_next_task (st : QueueState) (cfg : QueueConfig) (now : Int) :
    Option TaskDescriptor × QueueState :=
  getNextTaskAux cfg now (st.redisQueue.length + 1) st

/-- The row mutation of `retry_task`. -/
def retryEntryRow (e : ProcessingQueueEntry) : ProcessingQueueEntry :=
  { e with
    retry_count := e.retry_count + 1
    status := QueueStatus.waiting
    priority := max 0 (e.priority - 1) }

/-- `QueueManager.retry_task`: bump `retry_count`, drop the priority by
one (floored at 0), set the row back to `waiting`, re-add the ranking
entry scored as if added `delay_seconds` in the future, and decrement
the processing counter. -/
def retry_task (st : QueueState) (note_id : Nat) (delay_seconds now : Int) :
    QueueState :=
  match st.dbQueue.find? (fun e => decide (e.note_id = note_id)) with
  | none => st
  | some e =>
    let new_priority := max 0 (e.priority - 1)
    let newDb := st.dbQueue.map
      (fun e' => if e'.note_id = note_id then retryEntryRow e' else e')
    let st₁ := { st with dbQueue := newDb }
    let future_timestamp := now + delay_seconds
    let score := new_priority * 1000000 - future_timestamp
    { st₁ with
      redisQueue := zadd st₁.redisQueue note_id score
      processingCount := st₁.processingCount - 1 }

end Neviso

namespace Neviso

theorem find?_retry_map (nid : Nat) :
    ∀ (l : List ProcessingQueueEntry) (e : ProcessingQueueEntry),
      l.find? (fun e' => decide (e'.note_id = nid)) = some e →
      (l.map (fun e' => if e'.note_id = nid then retryEntryRow e' else e')).find?
          (fun e' => decide (e'.note_id = nid)) = some (retryEntryRow e) := by
  intro l
  induction l with
  | nil => intro e he; simp at he
  | cons x xs ih =>
    intro e he
    by_cases hx : x.note_id = nid
    · rw [List.find?_cons_of_pos _ (by simpa using hx)] at he
      injection he with he
      subst he
      rw [List.map_cons, if_pos hx]
      exact List.find?_cons_of_pos _ (by simpa using hx)
    · rw [List.find?_cons_of_neg _ (by simpa using hx)] at he
      rw [List.map_cons, if_neg hx,
        List.find?_cons_of_neg _ (by simpa using hx)]
      exact ih e he

theorem zadd_find (l : List (Nat × Int)) (m : Nat) (s : Int) :
    (zadd l m s).find? (fun p => decide (p.1 = m)) = some (m, s) := by
  unfold zadd
  by_cases h : (l.find? fun p => decide (p.1 = m)).isSome
  · rw [if_pos h]
    induction l with
    | nil => simp at h
    | cons x xs ih =>
      by_cases hx : x.1 = m
      · rw [List.map_cons, if_pos hx]
        exact List.find?_cons_of_pos _ (by simp)
      · rw [List.map_cons, if_neg hx,
          List.find?_cons_of_neg _ (by simpa using hx)]
        apply ih
        rw [List.find?_cons_of_neg _ (by simpa using hx)] at h
        exact h
  · rw [if_neg h]
    rw [List.find?_append, Option.not_isSome_iff_eq_none.mp h]
    simp

/-! ### Claim C6 -/

/-- **C6.** For every queue entry in `processing` state, `retry_task`
increments its `retry_count` by 1, sets its priority to
`max(0, priority − 1)`, puts its status back to `waiting`, re-adds a
ranking entry for the note scored as if added `delay_seconds` in the
future (`newPriority * 1000000 − (now + delay)`), and decrements the
processing count by 1. -/
theorem retry_task_effects (st : QueueState) (nid : Nat) (delay now : Int)
    (e : ProcessingQueueEntry)
    (hfind : st.dbQueue.find? (fun e' => decide (e'.note_id = nid)) = some e)
    (hproc : e.status = QueueStatus.processing) :
    (retry_task st nid delay now).dbQueue.find?
        (fun e' => decide (e'.note_id = nid)) = some (retryEntryRow e) ∧
    (retryEntryRow e).retry_count = e.retry_count + 1 ∧
    (retryEntryRow e).priority = max 0 (e.priority - 1) ∧
    (retryEntryRow e).status = QueueStatus.waiting ∧
    (retry_task st nid delay now).redisQueue.find? (fun p => decide (p.1 = nid))
      = some (nid, max 0 (e.priority - 1) * 1000000 - (now + delay)) ∧
    (retry_task st nid delay now).processingCount = st.processingCount - 1 := by
  have hretry : retry_task st nid delay now =
      { st with
        dbQueue := st.dbQueue.map
          (fun e' => if e'.note_id = nid then retryEntryRow e' else e')
        redisQueue := zadd st.redisQueue nid
          (max 0 (e.priority - 1) * 1000000 - (now + delay))
        processingCount := st.processingCount - 1 } := by
    unfold retry_task
    rw [hfind]
  rw [hretry]
  exact ⟨find?_retry_map nid st.dbQueue e hfind, rfl, rfl, rfl,
    zadd_find st.redisQueue nid _, rfl⟩

/-- A one-entry queue with the job currently processing. -/
def retryScenarioState : QueueState :=
  { dbQueue := [⟨1, 5, 7, 2, QueueStatus.processing, 0, none, 0, some 0, none, none⟩],
    quotas := [],
    subs := [],
    minuteCounts := [],
    redisQueue := [],
    processingCount := 1,
    nextQueueId := 2 }

/-- Witness for `retry_task_effects`. -/
theorem retry_task_effects_witness :
    (retry_task retryScenarioState 5 60 100).dbQueue.find?
        (fun e' => decide (e'.note_id = 5))
      = some (retryEntryRow
          ⟨1, 5, 7, 2, QueueStatus.processing, 0, none, 0, some 0, none, none⟩) ∧
    (retryEntryRow
        ⟨1, 5, 7, 2, QueueStatus.processing, 0, none, 0, some 0, none, none⟩).retry_count
      = 0 + 1 ∧
    (retryEntryRow
        ⟨1, 5, 7, 2, QueueStatus.processing, 0, none, 0, some 0, none, none⟩).priority
      = max 0 (2 - 1) ∧
    (retryEntryRow
        ⟨1, 5, 7, 2, QueueStatus.processing, 0, none, 0, some 0, none, none⟩).status
      = QueueStatus.waiting ∧
    (retry_task retryScenarioState 5 60 100).redisQueue.find?
        (fun p => decide (p.1 = 5))
      = some (5, max 0 (2 - 1) * 1000000 - (100 + 60)) ∧
    (retry_task retryScenarioState 5 60 100).processingCount = 1 - 1 :=
  retry_task_effects retryScenarioState 5 60 100
    ⟨1, 5, 7, 2, QueueStatus.processing, 0, none, 0, some 0, none, none⟩
    (by decide) rfl

end Neviso

namespace Neviso

/-! ### Claim C5 -/

/-- Two waiting jobs: note `n1` at priority 2 and note `n2` at
priority 0, ranked with the enqueue scores, nothing processing. -/
def dispatchState (n1 n2 q1 q2 u1 u2 : Nat) (t1 t2 : Int) : QueueState :=
  { dbQueue :=
      [⟨q1, n1, u1, 2, QueueStatus.waiting, 0, none, t1, none, none, none⟩,
       ⟨q2, n2, u2, 0, QueueStatus.waiting, 0, none, t2, none, none, none⟩],
    quotas := [],
    subs := [],
    minuteCounts := [],
    redisQueue := [(n1, 2 * 1000000 - t1), (n2, 0 * 1000000 - t2)],
    processingCount := 0,
    nextQueueId := q1 + q2 + 1 }

/-- Capacity 1 (the scenario's concurrency cap). -/
def dispatchCfg : QueueConfig :=
  { MAX_USER_UPLOADS_PER_MINUTE := 3,
    MAX_USER_UPLOADS_PER_DAY := 50,
    MAX_CONCURRENT_PROCESSING := 1 }

/-- The state after the first dispatch: `n1` processing, its ranking
entry removed, processing count 1. -/
def dispatchStateAfter (n1 n2 q1 q2 u1 u2 : Nat) (t1 t2 now : Int) : QueueState :=
  { dbQueue :=
      [⟨q1, n1, u1, 2, QueueStatus.processing, 0, none, t1, some now, none, none⟩,
       ⟨q2, n2, u2, 0, QueueStatus.waiting, 0, none, t2, none, none, none⟩],
    quotas := [],
    subs := [],
    minuteCounts := [],
    redisQueue := [(n2, 0 * 1000000 - t2)],
    processingCount := 1,
    nextQueueId := q1 + q2 + 1 }

/-- **C5.** With capacity 1 and two waiting jobs at priority 2 and
priority 0, the first `dispatch()` returns the priority-2 job, marks it
`processing` and increments the processing count to 1; a second
`dispatch()` issued while that job is still processing returns nothing
and changes nothing.  (The hypothesis `-t2 < 2·10⁶ - t1` is the spec's
"K large enough that priority always dominates recency": it holds
whenever the two enqueue instants are less than 2·10⁶ seconds apart.) -/
theorem dispatch_priority_and_capacity (n1 n2 q1 q2 u1 u2 : Nat)
    (t1 t2 now now2 : Int) (hne : n1 ≠ n2)
    (hscore : -t2 < 2 * 1000000 - t1) :
    get_next_task (dispatchState n1 n2 q1 q2 u1 u2 t1 t2) dispatchCfg now
      = (some ⟨n1, u1, 2, q1⟩, dispatchStateAfter n1 n2 q1 q2 u1 u2 t1 t2 now) ∧
    get_next_task (dispatchStateAfter n1 n2 q1 q2 u1 u2 t1 t2 now) dispatchCfg now2
      = (none, dispatchStateAfter n1 n2 q1 q2 u1 u2 t1 t2 now) := by
  have hlt : ¬ (2 * 1000000 - t1 < 0 * 1000000 - t2) := by
    intro h
    simp only [zero_mul, zero_sub] at h
    linarith
  have heqs : ¬ (2 * 1000000 - t1 = 0 * 1000000 - t2) := by
    intro h
    simp only [zero_mul, zero_sub] at h
    linarith
  constructor
  · show getNextTaskAux dispatchCfg now (2 + 1)
        (dispatchState n1 n2 q1 q2 u1 u2 t1 t2) = _
    rw [getNextTaskAux]
    rw [if_neg (by norm_num [dispatchState, dispatchCfg])]
    have htop : zrevrangeTop (dispatchState n1 n2 q1 q2 u1 u2 t1 t2).redisQueue
        = some (n1, 2 * 1000000 - t1) := by
      show some (if zrevBefore (n2, 0 * 1000000 - t2) (n1, 2 * 1000000 - t1)
          then (n2, 0 * 1000000 - t2) else (n1, 2 * 1000000 - t1)) = _
      rw [if_neg]
      intro h
      rcases h with h | ⟨h, _⟩
      · exact hlt h
      · exact heqs h
    simp only [htop]
    have hfindw : findWaitingEntry (dispatchState n1 n2 q1 q2 u1 u2 t1 t2).dbQueue n1
        = some ⟨q1, n1, u1, 2, QueueStatus.waiting, 0, none, t1, none, none, none⟩ := by
      unfold findWaitingEntry dispatchState
      exact List.find?_cons_of_pos _ (by simp)
    simp only [hfindw]
    simp only [Prod.mk.injEq]
    refine ⟨trivial, ?_⟩
    unfold dispatchState dispatchStateAfter setEntryProcessing zrem
    simp [hne, Ne.symm hne]
  · show getNextTaskAux dispatchCfg now2 (1 + 1)
        (dispatchStateAfter n1 n2 q1 q2 u1 u2 t1 t2 now) = _
    rw [getNextTaskAux]
    rw [if_pos (by norm_num [dispatchStateAfter, dispatchCfg])]

/-- Witness for `dispatch_priority_and_capacity` at concrete inputs. -/
theorem dispatch_priority_and_capacity_witness :
    get_next_task (dispatchState 1 2 11 12 7 8 1000 1000) dispatchCfg 1000
      = (some ⟨1, 7, 2, 11⟩, dispatchStateAfter 1 2 11 12 7 8 1000 1000 1000) ∧
    get_next_task (dispatchStateAfter 1 2 11 12 7 8 1000 1000 1000) dispatchCfg 2000
      = (none, dispatchStateAfter 1 2 11 12 7 8 1000 1000 1000) :=
  dispatch_priority_and_capacity 1 2 11 12 7 8 1000 1000 1000 2000
    (by decide) (by norm_num)

end Neviso

namespace Neviso

/-- The rate check either leaves the state untouched or only applies
the daily-rollover reset to the caller's quota row. -/
theorem check_user_rate_limit_state (st : QueueState) (cfg : QueueConfig)
    (u : Nat) (today : Int) :
    (check_user_rate_limit st cfg u today).2 = st ∨
    (check_user_rate_limit st cfg u today).2
      = { st with quotas := updateQuota st.quotas u (resetQuotaRow today) } := by
  unfold check_user_rate_limit
  dsimp only
  split
  · exact Or.inl rfl
  · split
    · exact Or.inl rfl
    · split
      · split
        · first
          | exact Or.inl rfl
          | exact Or.inr rfl
        · first
          | exact Or.inl rfl
          | exact Or.inr rfl
      · split
        · first
          | exact Or.inl rfl
          | exact Or.inr rfl
        · first
          | exact Or.inl rfl
          | exact Or.inr rfl

theorem check_user_rate_limit_dbQueue (st : QueueState) (cfg : QueueConfig)
    (u : Nat) (today : Int) :
    (check_user_rate_limit st cfg u today).2.dbQueue = st.dbQueue := by
  rcases check_user_rate_limit_state st cfg u today with h | h <;> rw [h]

/-! ### Claim C4 -/

/-- **C4.** Enqueue is idempotent: whenever a `ProcessingQueue` row
already exists for the note and the rate check passes, `add_to_queue`
returns that existing entry's id, status and priority, and the durable
queue is unchanged — no second row is created. -/
theorem enqueue_idempotent (st : QueueState) (cfg : QueueConfig) (nid u : Nat)
    (est : Option ℚ) (now today : Int) (e : ProcessingQueueEntry)
    (st₁ : QueueState)
    (hfind : st.dbQueue.find? (fun e' => decide (e'.note_id = nid)) = some e)
    (hcheck : check_user_rate_limit st cfg u today = (Except.ok (), st₁)) :
    add_to_queue st cfg nid u est now today
      = (Except.ok ⟨e.id, e.status, e.priority, none⟩, st₁) ∧
    st₁.dbQueue = st.dbQueue := by
  have hdb : st₁.dbQueue = st.dbQueue := by
    have h := check_user_rate_limit_dbQueue st cfg u today
    rw [hcheck] at h
    exact h
  constructor
  · unfold add_to_queue
    rw [hcheck]
    have hfind₁ : st₁.dbQueue.find? (fun e' => decide (e'.note_id = nid)) = some e := by
      rw [hdb]
      exact hfind
    simp only [hfind₁]
  · exact hdb

/-- A queued note alongside a passing rate limiter. -/
def duplicateState : QueueState :=
  { dbQueue := [⟨1, 5, 7, 0, QueueStatus.waiting, 0, none, 0, none, none, none⟩],
    quotas := [⟨7, 3, some 0, 0, 10⟩],
    subs := [],
    minuteCounts := [(7, 1)],
    redisQueue := [(5, -100)],
    processingCount := 0,
    nextQueueId := 2 }

/-- The configuration defaults of `app/core/config.py`. -/
def defaultCfg : QueueConfig :=
  { MAX_USER_UPLOADS_PER_MINUTE := 3,
    MAX_USER_UPLOADS_PER_DAY := 50,
    MAX_CONCURRENT_PROCESSING := 10 }

/-- Witness for `enqueue_idempotent`. -/
theorem enqueue_idempotent_witness :
    add_to_queue duplicateState defaultCfg 5 7 none 100 10
      = (Except.ok ⟨1, QueueStatus.waiting, 0, none⟩, duplicateState) ∧
    duplicateState.dbQueue = duplicateState.dbQueue :=
  enqueue_idempotent duplicateState defaultCfg 5 7 none 100 10
    ⟨1, 5, 7, 0, QueueStatus.waiting, 0, none, 0, none, none, none⟩
    duplicateState (by decide) (by rfl)

end Neviso

namespace Neviso

/-! ### Claim C10 -/

/-- A duplicate-enqueue state whose quota row is stale: last reset on
day 9, daily counter at 3. -/
def staleQuotaState : QueueState :=
  { dbQueue := [⟨1, 5, 7, 0, QueueStatus.waiting, 0, none, 0, none, none, none⟩],
    quotas := [⟨7, 3, some 0, 0, 9⟩],
    subs := [],
    minuteCounts := [],
    redisQueue := [(5, -100)],
    processingCount := 0,
    nextQueueId := 2 }

/-- **C10, counterexample.**  Enqueueing a note that is already queued
is claimed to leave the owner's rate counters unchanged.  But the rate
check runs *before* the duplicate check and commits its UTC-day
rollover: on day 10, the duplicate enqueue still returns the existing
entry, yet the per-day counter has been reset from 3 to 0 — the state
is not untouched. -/
theorem duplicate_enqueue_resets_daily_cex :
    (add_to_queue staleQuotaState defaultCfg 5 7 none 100 10).1
        = Except.ok ⟨1, QueueStatus.waiting, 0, none⟩ ∧
    ((add_to_queue staleQuotaState defaultCfg 5 7 none 100 10).2.quotas.map
        (fun q => q.daily_upload_count)) = [0] ∧
    (staleQuotaState.quotas.map fun q => q.daily_upload_count) = [3] := by
  refine ⟨rfl, rfl, rfl⟩

/-- The rate check is the identity on the state when it passes with no
daily rollover pending. -/
theorem check_user_rate_limit_pass (st : QueueState) (cfg : QueueConfig)
    (u : Nat) (today : Int)
    (hm : ∀ c, lookupMinuteCount st.minuteCounts u = some c →
      c < cfg.MAX_USER_UPLOADS_PER_MINUTE)
    (hq : ∀ q, findQuota st.quotas u = some q →
      today ≤ q.last_reset_at ∧ q.daily_upload_count < cfg.MAX_USER_UPLOADS_PER_DAY) :
    check_user_rate_limit st cfg u today = (Except.ok (), st) := by
  unfold check_user_rate_limit
  cases hmc : lookupMinuteCount st.minuteCounts u with
  | none =>
    cases hfq : findQuota st.quotas u with
    | none => rfl
    | some q =>
      obtain ⟨h1, h2⟩ := hq q hfq
      have hreset : ¬ (q.last_reset_at < today) := not_lt.mpr h1
      have h3 : ¬ (q.daily_upload_count ≥ cfg.MAX_USER_UPLOADS_PER_DAY) :=
        not_le.mpr h2
      simp [hreset, h3]
  | some c =>
    have hc : ¬ (c ≥ cfg.MAX_USER_UPLOADS_PER_MINUTE) := not_le.mpr (hm c hmc)
    cases hfq : findQuota st.quotas u with
    | none => simp [hc]
    | some q =>
      obtain ⟨h1, h2⟩ := hq q hfq
      have hreset : ¬ (q.last_reset_at < today) := not_lt.mpr h1
      have h3 : ¬ (q.daily_upload_count ≥ cfg.MAX_USER_UPLOADS_PER_DAY) :=
        not_le.mpr h2
      simp [hc, hreset, h3]

/-- **C10, amended.**  When the rate check passes with no daily
rollover pending, enqueueing an already-queued note returns the
existing entry and changes nothing at all: the returned state is the
input state — no ranking entry is inserted and neither the per-minute
nor the per-day counter moves.  A pending rollover is the only
exception: it resets the daily counters to zero (see the
counterexample); the counters are never incremented, so duplicate
submissions never consume rate allowance. -/
theorem duplicate_enqueue_no_side_effects (st : QueueState) (cfg : QueueConfig)
    (nid u : Nat) (est : Option ℚ) (now today : Int) (e : ProcessingQueueEntry)
    (hfind : st.dbQueue.find? (fun e' => decide (e'.note_id = nid)) = some e)
    (hm : ∀ c, lookupMinuteCount st.minuteCounts u = some c →
      c < cfg.MAX_USER_UPLOADS_PER_MINUTE)
    (hq : ∀ q, findQuota st.quotas u = some q →
      today ≤ q.last_reset_at ∧ q.daily_upload_count < cfg.MAX_USER_UPLOADS_PER_DAY) :
    add_to_queue st cfg nid u est now today
      = (Except.ok ⟨e.id, e.status, e.priority, none⟩, st) := by
  unfold add_to_queue
  rw [check_user_rate_limit_pass st cfg u today hm hq]
  simp only [hfind]

/-- Witness for `duplicate_enqueue_no_side_effects`. -/
theorem duplicate_enqueue_no_side_effects_witness :
    add_to_queue duplicateState defaultCfg 5 7 none 100 10
      = (Except.ok ⟨1, QueueStatus.waiting, 0, none⟩, duplicateState) :=
  duplicate_enqueue_no_side_effects duplicateState defaultCfg 5 7 none 100 10
    ⟨1, 5, 7, 0, QueueStatus.waiting, 0, none, 0, none, none, none⟩
    (by decide)
    (by
      intro c hc
      injection hc with h
      simp only [defaultCfg]
      omega)
    (by
      intro q hq
      injection hq with h
      rw [← h]
      exact ⟨by norm_num, by norm_num [defaultCfg]⟩)

end Neviso
